import Mathlib

/-!
Verification of the halmos driver (`src/halmos/__main__.py`): a shallow
embedding of the functions `run`, `setup`, `gen_model`, `is_valid_model`,
`add_srcmap` and the calldata construction, together with theorems settling
the specification claims about them.

The z3 solver is external to the repository; each `Solver.check()` call is
abstracted by an oracle value (`CheckRes`) supplied as input, and the
sequence of solver interactions performed by the code is recorded as a
trace (`SolverCall`).  Parts of the repository that live in the `sevm`
module (not present under `src/`) are modelled from the spec and marked as
such in their doc comments.
-/

/-- A z3 model, abstracted as the list of the names of the declarations it
assigns (`for decl in model` in the source iterates declarations; only the
names are inspected by the driver). -/
abbrev Model := List String

/-- Structural string-prefix test (Python `str.startswith`), over the
character lists of the strings. -/
def listStartsWith : List Char → List Char → Bool
  | _, [] => true
  | [], _ :: _ => false
  | c :: cs, p :: ps => c == p && listStartsWith cs ps

/-- Source `is_valid_model` (lines 395-400): a model is valid iff no
assigned declaration's name starts with `evm_`. -/
def is_valid_model (model : Model) : Bool :=
  model.all (fun decl => !(listStartsWith decl.data "evm_".data))

/-- Result of one z3 `Solver.check()` call; the model is attached when the
result is `sat` (the source assigns `model = <solver>.model()` immediately
after each `sat` check, so the current model is always the payload of the
current `sat` result). -/
inductive CheckRes where
  | sat (m : Model)
  | unsat
  | unknown
deriving DecidableEq, Repr

/-- The two quantified axioms added to the fresh context `sol3` in
`gen_model` (lines 357-358): `ForAll x y, ULE (evm_div x y) x` and
`ForAll x y, ULE (evm_mod x y) y`. -/
inductive SmtAxiom where
  | divULE
  | modULE
deriving DecidableEq, Repr

/-- Trace of the solver interactions performed by `gen_model`:
`check1` is `ex.solver.check()` (line 335, branching timeout);
`check2 t` is the fresh-context re-check `sol2` loaded from
`ex.solver.sexpr()` with timeout `t` (lines 338-341);
`check3 t axs` is the fresh-context re-check `sol3` loaded from
`ex.solver.sexpr()` with timeout `t` and the axioms `axs` added
(lines 344-373); `runZ3 logic` is the external solver subprocess run on an
SMT2 file holding `(set-logic logic)` and the assertions (lines 376-381). -/
inductive SolverCall where
  | check1
  | check2 (timeout : Nat)
  | check3 (timeout : Nat) (axioms : List SmtAxiom)
  | runZ3 (logic : String)
deriving DecidableEq, Repr

/-- The command-line options consumed by the embedded fragment of the
driver (`parse_args`, lines 21-52): loop bound, the two solver timeouts and
the solver-subprocess switch. -/
structure Args where
  loop : Nat
  solver_timeout_branching : Nat
  solver_timeout_assertion : Nat
  solver_subprocess : Bool
deriving DecidableEq, Repr

/-- Oracle for the solver results seen by one `gen_model` invocation:
`res1` is the result of `ex.solver.check()`, `res2` of the `sol2` re-check,
`res3` of the axiomatized `sol3` re-check, and `z3Out` the stripped stdout
of the external `z3` subprocess. -/
structure GenEnv where
  res1 : CheckRes
  res2 : CheckRes
  res3 : CheckRes
  z3Out : String
deriving DecidableEq, Repr

/-- The value of `res` (with its model) after lines 335-342 of `gen_model`:
the initial check, retried on the fresh context `sol2` when `unknown`. -/
def checkPhase1 (env : GenEnv) : CheckRes :=
  match env.res1 with
  | .unknown => env.res2
  | r => r

/-- The value of `res` after line 374 of `gen_model`: when the phase-1
result is `sat` with a model interpreting an `evm_*` declaration, it is
replaced by the verdict of the axiomatized fresh context `sol3`. -/
def inProcessRes (env : GenEnv) : CheckRes :=
  match checkPhase1 env with
  | .sat m => if is_valid_model m then .sat m else env.res3
  | r => r

/-- The value of `res` after line 384 of `gen_model`: a still-`unknown`
result becomes `unsat` when the subprocess is enabled and the external
solver printed `unsat` (no other external output changes `res`). -/
def subprocessRes (args : Args) (env : GenEnv) (r : CheckRes) : CheckRes :=
  match r with
  | .unknown =>
      if args.solver_subprocess ∧ env.z3Out = "unsat" then .unsat else .unknown
  | r => r

/-- Lines 385-393 of `gen_model`: `unsat` records nothing; `sat` records
the model when valid and a model-less entry otherwise; `unknown` records a
model-less entry.  `none` means no entry is appended to `models`;
`some none` is an entry printed as `Counterexample: unknown`. -/
def recordEntry : CheckRes → Option (Option Model)
  | .unsat => none
  | .sat m => some (if is_valid_model m then some m else none)
  | .unknown => some none

/-- The axioms added to `sol3` (lines 357-358; all further axioms in the
source are commented out). -/
def sol3Axioms : List SmtAxiom := [SmtAxiom.divULE, SmtAxiom.modULE]

/-- Source `gen_model` (lines 334-393), relative to the solver oracle
`env`: returns the trace of solver interactions and the entry appended to
`models` (`none` when nothing is appended, `some m?` when `(m?, idx, ex)`
is appended). -/
def gen_model (args : Args) (env : GenEnv) :
    List SolverCall × Option (Option Model) :=
  let calls2 : List SolverCall :=
    match env.res1 with
    | .unknown => [.check2 args.solver_timeout_assertion]
    | _ => []
  let calls3 : List SolverCall :=
    match checkPhase1 env with
    | .sat m =>
        if is_valid_model m then []
        else [.check3 args.solver_timeout_assertion sol3Axioms]
    | _ => []
  let calls4 : List SolverCall :=
    match inProcessRes env with
    | .unknown => if args.solver_subprocess then [.runZ3 "QF_AUFBV"] else []
    | _ => []
  (.check1 :: (calls2 ++ calls3 ++ calls4),
    recordEntry (subprocessRes args env (inProcessRes env)))

/-- A terminal execution state as inspected by `run` (lines 278-291): the
opcode at the final program counter (`ex.pgm[ex.this][ex.pc].op[0]`), the
`failed` flag, and the output (`none` when `ex.output` is `None`, the
integer value of the output bytes otherwise). -/
structure TermExec where
  opcode : String
  failed : Bool
  output : Option Nat
deriving DecidableEq, Repr

/-- The 36-byte `Panic(uint256)` encoding for `assert(false)` compared
against `ex.output` at line 287:
`int('4e487b71' + '00..001', 16)`. -/
def assertPanic : Nat :=
  0x4e487b710000000000000000000000000000000000000000000000000000000000000001

/-- Outcome of the classification of one terminal state by the `if` chain
at lines 279-290 of `run`: counted `normal`, passed to `gen_model`
(`candidate`), silently skipped (`ignored` — a `REVERT` whose output is not
the panic encoding), or appended to `stuck`. -/
inductive Classif where
  | normal
  | candidate
  | ignored
  | stuckOp
deriving DecidableEq, Repr

/-- The `if` chain at lines 279-290 of `run`. -/
def classifyTerm (e : TermExec) : Classif :=
  if e.opcode = "STOP" ∨ e.opcode = "RETURN" then
    if e.failed then .candidate else .normal
  else if e.opcode = "REVERT" then
    if e.output = some assertPanic then .candidate else .ignored
  else .stuckOp

/-- Accumulator of the classification loop of `run` (lines 275-290):
`normal` counter, `models` entries `(model?, idx)`, `stuck` entries
`(opcode, idx)` and the concatenated solver traces of the `gen_model`
invocations. -/
structure RunAcc where
  normal : Nat
  models : List (Option Model × Nat)
  stuck : List (String × Nat)
  calls : List SolverCall
deriving DecidableEq, Repr

/-- One iteration of the classification loop of `run`. -/
def runStep (args : Args) (idx : Nat) (acc : RunAcc) (p : TermExec × GenEnv) :
    RunAcc :=
  match classifyTerm p.1 with
  | .normal => { acc with normal := acc.normal + 1 }
  | .candidate =>
      let g := gen_model args p.2
      { acc with
        models := acc.models ++ (match g.2 with
          | some entry => [(entry, idx)]
          | none => [])
        calls := acc.calls ++ g.1 }
  | .ignored => acc
  | .stuckOp => { acc with stuck := acc.stuck ++ [(p.1.opcode, idx)] }

/-- The classification loop `for idx, ex in enumerate(exs)` of `run`. -/
def runLoop (args : Args) : Nat → RunAcc → List (TermExec × GenEnv) → RunAcc
  | _, acc, [] => acc
  | idx, acc, p :: ps => runLoop args (idx + 1) (runStep args idx acc p) ps

/-- The classification of all terminal states by `run` (lines 275-290),
starting from `normal = 0`, `models = []`, `stuck = []`. -/
def runClassify (args : Args) (exs : List (TermExec × GenEnv)) : RunAcc :=
  runLoop args 0 ⟨0, [], [], []⟩ exs

/-- Line 294 of `run`:
`passed = (normal > 0 and len(models) == 0 and len(stuck) == 0)`. -/
def runPassed (args : Args) (exs : List (TermExec × GenEnv)) : Bool :=
  let acc := runClassify args exs
  decide (0 < acc.normal) && acc.models.isEmpty && acc.stuck.isEmpty

/-- Lines 329-332 of `run`: exit code 0 when passed, 1 otherwise. -/
def runExitCode (args : Args) (exs : List (TermExec × GenEnv)) : Nat :=
  if runPassed args exs then 0 else 1

/-- One step of the per-test tally of `main` (lines 507-510): an exit code
of zero counts as passed, any other as failed. -/
def mtStep (pf : Nat × Nat) (c : Nat) : Nat × Nat :=
  if c = 0 then (pf.1 + 1, pf.2) else (pf.1, pf.2 + 1)

/-- The per-test tally of `main` (lines 507-513): total passed and failed
counts over all test exit codes. -/
def mainTally (codes : List Nat) : Nat × Nat :=
  codes.foldl mtStep (0, 0)

/-- Lines 515-522 of `main`: error when no test ran, exit code 0 iff no
test failed. -/
def mainExitCode (codes : List Nat) : Except String Nat :=
  if (mainTally codes).1 + (mainTally codes).2 = 0 then
    .error "No matching tests found"
  else if (mainTally codes).2 = 0 then .ok 0 else .ok 1

/-- A terminal state of the `setUp()` run as inspected by `setup`
(lines 129-136): final opcode and `failed` flag. -/
structure SetupTerm where
  opcode : String
  failed : Bool
deriving DecidableEq, Repr

/-- Lines 124-141 of `setup` for the case where a `setUp()` selector is
present (`hasSetupSig = true`): `initial` is the pre-run state (returned
unchanged when no selector exists), `setup_exs` the terminal states
produced by running `setUp()`.  A list that is not a singleton has
`len(setup_exs) != 1`. -/
def setupResult (hasSetupSig : Bool) (initial : SetupTerm)
    (setup_exs : List SetupTerm) : Except String SetupTerm :=
  if hasSetupSig then
    match setup_exs with
    | [e] =>
        if (e.opcode ≠ "STOP" ∧ e.opcode ≠ "RETURN") ∨ e.failed then
          .error "setUp() failed"
        else .ok e
    | _ => .error "multiple paths exist in setUp()"
  else .ok initial

/-- Claim-level predicate: a normal terminal (`STOP`/`RETURN` with the
`failed` flag unset, line 284). -/
def isNormalTerm (e : TermExec) : Prop :=
  (e.opcode = "STOP" ∨ e.opcode = "RETURN") ∧ e.failed = false

/-- Claim-level predicate: a candidate violation (lines 281-282, 287-288). -/
def isCandidateTerm (e : TermExec) : Prop :=
  ((e.opcode = "STOP" ∨ e.opcode = "RETURN") ∧ e.failed = true) ∨
    (e.opcode = "REVERT" ∧ e.output = some assertPanic)

/-- Claim-level predicate: a stuck terminal (line 290). -/
def isStuckTerm (e : TermExec) : Prop :=
  e.opcode ≠ "STOP" ∧ e.opcode ≠ "RETURN" ∧ e.opcode ≠ "REVERT"

instance (e : TermExec) : Decidable (isNormalTerm e) := by
  unfold isNormalTerm; infer_instance

instance (e : TermExec) : Decidable (isCandidateTerm e) := by
  unfold isCandidateTerm; infer_instance

instance (e : TermExec) : Decidable (isStuckTerm e) := by
  unfold isStuckTerm; infer_instance

lemma classify_normal_iff (e : TermExec) :
    classifyTerm e = Classif.normal ↔ isNormalTerm e := by
  unfold classifyTerm isNormalTerm
  by_cases h1 : e.opcode = "STOP" <;> by_cases h2 : e.opcode = "RETURN" <;>
    by_cases h3 : e.opcode = "REVERT" <;> cases hf : e.failed <;>
    by_cases h4 : e.output = some assertPanic <;> simp_all

lemma classify_candidate_iff (e : TermExec) :
    classifyTerm e = Classif.candidate ↔ isCandidateTerm e := by
  unfold classifyTerm isCandidateTerm
  by_cases h1 : e.opcode = "STOP" <;> by_cases h2 : e.opcode = "RETURN" <;>
    by_cases h3 : e.opcode = "REVERT" <;> cases hf : e.failed <;>
    by_cases h4 : e.output = some assertPanic <;> simp_all

lemma classify_stuck_iff (e : TermExec) :
    classifyTerm e = Classif.stuckOp ↔ isStuckTerm e := by
  unfold classifyTerm isStuckTerm
  by_cases h1 : e.opcode = "STOP" <;> by_cases h2 : e.opcode = "RETURN" <;>
    by_cases h3 : e.opcode = "REVERT" <;> cases hf : e.failed <;>
    by_cases h4 : e.output = some assertPanic <;> simp_all

lemma gen_model_calls_ne_nil (args : Args) (env : GenEnv) :
    (gen_model args env).1 ≠ [] := by
  unfold gen_model
  simp

lemma runLoop_normal_pos (args : Args) (l : List (TermExec × GenEnv)) :
    ∀ (i : Nat) (acc : RunAcc),
      (0 < (runLoop args i acc l).normal ↔
        0 < acc.normal ∨ ∃ p ∈ l, classifyTerm p.1 = Classif.normal) := by
  induction l with
  | nil => intro i acc; simp [runLoop]
  | cons p ps ih =>
      intro i acc
      rw [runLoop, ih]
      cases h : classifyTerm p.1 <;> simp [runStep, h] <;> tauto

lemma runLoop_models_nil (args : Args) (l : List (TermExec × GenEnv)) :
    ∀ (i : Nat) (acc : RunAcc),
      ((runLoop args i acc l).models = [] ↔
        acc.models = [] ∧
          ∀ p ∈ l, classifyTerm p.1 = Classif.candidate →
            (gen_model args p.2).2 = none) := by
  induction l with
  | nil => intro i acc; simp [runLoop]
  | cons p ps ih =>
      intro i acc
      rw [runLoop, ih]
      cases h : classifyTerm p.1
      case candidate =>
        cases hg : (gen_model args p.2).2 <;> simp [runStep, h, hg] <;> tauto
      all_goals simp [runStep, h]

lemma runLoop_stuck_nil (args : Args) (l : List (TermExec × GenEnv)) :
    ∀ (i : Nat) (acc : RunAcc),
      ((runLoop args i acc l).stuck = [] ↔
        acc.stuck = [] ∧ ∀ p ∈ l, classifyTerm p.1 ≠ Classif.stuckOp) := by
  induction l with
  | nil => intro i acc; simp [runLoop]
  | cons p ps ih =>
      intro i acc
      rw [runLoop, ih]
      cases h : classifyTerm p.1 <;> simp [runStep, h] <;> tauto

lemma foldl_mtStep_fst (codes : List Nat) :
    ∀ (p f : Nat), (codes.foldl mtStep (p, f)).1 =
      p + codes.countP (fun c => decide (c = 0)) := by
  induction codes with
  | nil => intro p f; simp
  | cons c cs ih =>
      intro p f
      by_cases h : c = 0 <;>
        simp [mtStep, h, ih, List.countP_cons] <;> omega

lemma foldl_mtStep_snd (codes : List Nat) :
    ∀ (p f : Nat), (codes.foldl mtStep (p, f)).2 =
      f + codes.countP (fun c => !(decide (c = 0))) := by
  induction codes with
  | nil => intro p f; simp
  | cons c cs ih =>
      intro p f
      by_cases h : c = 0 <;>
        simp [mtStep, h, ih, List.countP_cons] <;> omega

lemma countP_zero_split (codes : List Nat) :
    codes.countP (fun c => decide (c = 0)) +
        codes.countP (fun c => !(decide (c = 0))) = codes.length := by
  induction codes with
  | nil => simp
  | cons c cs ih =>
      by_cases h : c = 0 <;> simp [List.countP_cons, h] <;> omega

lemma mainExitCode_ok_zero_iff (codes : List Nat) :
    mainExitCode codes = Except.ok 0 ↔ (codes ≠ [] ∧ ∀ c ∈ codes, c = 0) := by
  have hfst := foldl_mtStep_fst codes 0 0
  have hsnd := foldl_mtStep_snd codes 0 0
  have hlen := countP_zero_split codes
  unfold mainExitCode mainTally
  split_ifs with h1 h2
  · rw [hfst, hsnd] at h1
    constructor
    · intro hcontra; simp at hcontra
    · rintro ⟨hne, -⟩
      exact absurd (List.length_eq_zero.mp (by omega)) hne
  · rw [hsnd] at h2
    simp only [Except.ok.injEq]
    constructor
    · intro _
      refine ⟨?_, ?_⟩
      · rw [hfst, hsnd] at h1
        intro hnil
        subst hnil
        simp at h1
      · intro c hc
        have hz : codes.countP (fun c => !(decide (c = 0))) = 0 := by omega
        have := List.countP_eq_zero.mp hz c hc
        simpa using this
    · intro _; trivial
  · rw [hsnd] at h2
    constructor
    · intro hcontra; simp at hcontra
    · rintro ⟨-, hall⟩
      refine absurd ?_ h2
      have hz : codes.countP (fun c => !(decide (c = 0))) = 0 :=
        List.countP_eq_zero.mpr (fun c hc => by simp [hall c hc])
      omega

/-- C1: a test's exit code is 0 iff at least one normal terminal exists
(opcode `STOP`/`RETURN` with `failed` unset), no candidate violation
yielded a recorded counterexample entry, and no terminal is stuck on an
unsupported opcode; and `main`'s exit code is 0 iff every test's exit code
is 0 (given that at least one test ran). -/
theorem run_and_main_exit_zero_iff (args : Args) (exs : List (TermExec × GenEnv))
    (codes : List Nat) :
    (runExitCode args exs = 0 ↔
      ((∃ p ∈ exs, isNormalTerm p.1) ∧
       (∀ p ∈ exs, isCandidateTerm p.1 → (gen_model args p.2).2 = none) ∧
       (∀ p ∈ exs, ¬ isStuckTerm p.1))) ∧
    (mainExitCode codes = Except.ok 0 ↔ (codes ≠ [] ∧ ∀ c ∈ codes, c = 0)) := by
  constructor
  · have hpass : runExitCode args exs = 0 ↔ runPassed args exs = true := by
      unfold runExitCode; split <;> simp_all
    rw [hpass]
    unfold runPassed runClassify
    simp only [Bool.and_eq_true, decide_eq_true_eq, List.isEmpty_iff_eq_nil]
    rw [runLoop_normal_pos, runLoop_models_nil, runLoop_stuck_nil]
    simp only [← classify_normal_iff, ← classify_candidate_iff,
      ← classify_stuck_iff]
    simp
    tauto
  · exact mainExitCode_ok_zero_iff codes

/-- Witness for C1 at concrete inputs: a single normal `STOP` terminal with
no candidates and no stuck states exits with code 0, and a program whose
only test exited 0 exits with code 0. -/
theorem run_and_main_exit_zero_iff_witness :
    runExitCode ⟨2, 1000, 60000, false⟩
        [(⟨"STOP", false, none⟩, ⟨.unsat, .unsat, .unsat, ""⟩)] = 0 ∧
      mainExitCode [0] = Except.ok 0 := by
  constructor
  · exact (run_and_main_exit_zero_iff ⟨2, 1000, 60000, false⟩
      [(⟨"STOP", false, none⟩, ⟨.unsat, .unsat, .unsat, ""⟩)] [0]).1.mpr
      (by decide)
  · exact (run_and_main_exit_zero_iff ⟨2, 1000, 60000, false⟩ [] [0]).2.mpr
      ⟨by decide, by decide⟩

/-- C3: a terminal state is passed to `gen_model` iff it is a `STOP` or
`RETURN` with the `failed` flag set, or a `REVERT` whose output equals the
36-byte `Panic(1)` encoding; a terminal whose opcode is outside
`{STOP, RETURN, REVERT}` is exactly what lands in the `stuck` list. -/
theorem candidate_and_stuck_classification (e : TermExec) :
    (classifyTerm e = Classif.candidate ↔
      (((e.opcode = "STOP" ∨ e.opcode = "RETURN") ∧ e.failed = true) ∨
        (e.opcode = "REVERT" ∧ e.output = some assertPanic))) ∧
    (classifyTerm e = Classif.stuckOp ↔
      (e.opcode ≠ "STOP" ∧ e.opcode ≠ "RETURN" ∧ e.opcode ≠ "REVERT")) ∧
    (∀ (args : Args) (env : GenEnv),
      ((runClassify args [(e, env)]).calls ≠ [] ↔
        classifyTerm e = Classif.candidate)) ∧
    (∀ (args : Args) (env : GenEnv),
      ((runClassify args [(e, env)]).stuck ≠ [] ↔
        classifyTerm e = Classif.stuckOp)) := by
  refine ⟨classify_candidate_iff e, classify_stuck_iff e, ?_, ?_⟩ <;>
    · intro args env
      cases h : classifyTerm e <;>
        simp [runClassify, runLoop, runStep, h, gen_model_calls_ne_nil]

/-- Witness for C3 at a concrete input: a failed `STOP` terminal is a
candidate violation. -/
theorem candidate_and_stuck_classification_witness :
    classifyTerm ⟨"STOP", true, none⟩ = Classif.candidate :=
  (candidate_and_stuck_classification ⟨"STOP", true, none⟩).1.mpr
    (Or.inl ⟨Or.inl rfl, rfl⟩)

/-- C4: with a `setUp()` selector present, `setup` raises a fatal error
exactly when the `setUp()` run does not produce exactly one terminal state
(`multiple paths exist in setUp()`), or the unique terminal's opcode is
neither `STOP` nor `RETURN`, or its `failed` flag is set
(`setUp() failed`); otherwise it returns the unique terminal state. -/
theorem setup_fatal_characterization (init : SetupTerm) (exs : List SetupTerm) :
    ((∃ msg, setupResult true init exs = .error msg) ↔
      (exs.length ≠ 1 ∨
        ∃ e, exs = [e] ∧
          ((e.opcode ≠ "STOP" ∧ e.opcode ≠ "RETURN") ∨ e.failed = true))) ∧
    (exs.length ≠ 1 →
      setupResult true init exs = .error "multiple paths exist in setUp()") ∧
    (∀ e, exs = [e] →
      ((e.opcode ≠ "STOP" ∧ e.opcode ≠ "RETURN") ∨ e.failed = true) →
      setupResult true init exs = .error "setUp() failed") ∧
    (∀ e, exs = [e] →
      ¬((e.opcode ≠ "STOP" ∧ e.opcode ≠ "RETURN") ∨ e.failed = true) →
      setupResult true init exs = .ok e) := by
  match exs with
  | [] =>
      have hmult : setupResult true init [] =
          .error "multiple paths exist in setUp()" := by
        simp [setupResult]
      refine ⟨⟨fun _ => Or.inl (by simp), fun _ => ⟨_, hmult⟩⟩,
        fun _ => hmult, ?_, ?_⟩ <;>
        (intro g hg; simp at hg)
  | [e] =>
      have hred : setupResult true init [e] =
          if (e.opcode ≠ "STOP" ∧ e.opcode ≠ "RETURN") ∨ e.failed = true then
            .error "setUp() failed"
          else .ok e := by
        simp [setupResult]
      refine ⟨?_, by simp, ?_, ?_⟩
      · rw [hred]
        by_cases h : (e.opcode ≠ "STOP" ∧ e.opcode ≠ "RETURN") ∨ e.failed = true
        · rw [if_pos h]
          exact ⟨fun _ => Or.inr ⟨e, rfl, h⟩, fun _ => ⟨"setUp() failed", rfl⟩⟩
        · rw [if_neg h]
          constructor
          · rintro ⟨msg, hmsg⟩; simp at hmsg
          · rintro (hlen | ⟨f, hf, hbad⟩)
            · exact absurd rfl hlen
            · obtain rfl : e = f := by injection hf
              exact absurd hbad h
      · intro f hf hbad
        obtain rfl : e = f := by injection hf
        rw [hred, if_pos hbad]
      · intro f hf hgood
        obtain rfl : e = f := by injection hf
        rw [hred, if_neg hgood]
  | e :: f :: rest =>
      have hmult : setupResult true init (e :: f :: rest) =
          .error "multiple paths exist in setUp()" := by
        simp [setupResult]
      refine ⟨⟨fun _ => Or.inl (by simp), fun _ => ⟨_, hmult⟩⟩,
        fun _ => hmult, ?_, ?_⟩ <;>
        (intro g hg; simp at hg)

/-- Witness for C4 at concrete inputs: a unique non-failed `RETURN`
terminal is returned, a two-element list is the multiple-paths fatal
error, and a unique failed terminal is the `setUp() failed` error. -/
theorem setup_fatal_characterization_witness :
    setupResult true ⟨"STOP", false⟩ [⟨"RETURN", false⟩] =
        .ok ⟨"RETURN", false⟩ ∧
      setupResult true ⟨"STOP", false⟩ [⟨"STOP", false⟩, ⟨"STOP", false⟩] =
        .error "multiple paths exist in setUp()" ∧
      setupResult true ⟨"STOP", false⟩ [⟨"STOP", true⟩] =
        .error "setUp() failed" := by
  refine ⟨?_, ?_, ?_⟩
  · exact (setup_fatal_characterization ⟨"STOP", false⟩ [⟨"RETURN", false⟩]).2.2.2
      ⟨"RETURN", false⟩ rfl (by decide)
  · exact (setup_fatal_characterization ⟨"STOP", false⟩
      [⟨"STOP", false⟩, ⟨"STOP", false⟩]).2.1 (by decide)
  · exact (setup_fatal_characterization ⟨"STOP", false⟩ [⟨"STOP", true⟩]).2.2.1
      ⟨"STOP", true⟩ rfl (by decide)

/-- Counterexample for C2: a terminal `REVERT` whose output is not the
panic encoding (here output `0`) is not classified as a normal terminal:
it does not satisfy the "at least one normal terminal exists" conjunct,
so a test all of whose paths end in such reverts has `normal = 0` and
exits with code 1. -/
theorem revert_not_normal_counterexample :
    ¬ isNormalTerm ⟨"REVERT", false, some 0⟩ ∧
      classifyTerm ⟨"REVERT", false, some 0⟩ ≠ Classif.normal ∧
      (runClassify ⟨2, 1000, 60000, false⟩
        [(⟨"REVERT", false, some 0⟩, ⟨.unsat, .unsat, .unsat, ""⟩)]).normal = 0 ∧
      runExitCode ⟨2, 1000, 60000, false⟩
        [(⟨"REVERT", false, some 0⟩, ⟨.unsat, .unsat, .unsat, ""⟩)] = 1 := by
  refine ⟨by decide, by decide, by decide, by decide⟩

/-- C2 amended: a terminal `REVERT` whose output is not the 36-byte panic
encoding is neither a candidate violation nor stuck — the classification
loop skips it entirely (it contributes nothing to the `normal` counter,
`models`, or `stuck`). -/
theorem revert_nonpanic_ignored (e : TermExec)
    (hop : e.opcode = "REVERT") (hout : e.output ≠ some assertPanic) :
    classifyTerm e = Classif.ignored ∧
      (∀ (args : Args) (env : GenEnv) (idx : Nat) (acc : RunAcc),
        runStep args idx acc (e, env) = acc) := by
  have h1 : ¬(e.opcode = "STOP" ∨ e.opcode = "RETURN") := by
    rw [hop]; decide
  have hcl : classifyTerm e = Classif.ignored := by
    unfold classifyTerm
    rw [if_neg h1, if_pos hop, if_neg hout]
  exact ⟨hcl, fun args env idx acc => by simp [runStep, hcl]⟩

/-- Witness for the amended C2 at a concrete input: a `REVERT` with output
`0` is skipped by the classification. -/
theorem revert_nonpanic_ignored_witness :
    classifyTerm ⟨"REVERT", false, some 0⟩ = Classif.ignored :=
  (revert_nonpanic_ignored ⟨"REVERT", false, some 0⟩ rfl (by decide)).1

/-- C5: whenever the first `sat` result (from the initial check or the
`sol2` retry) carries a model interpreting an `evm_*` declaration,
`gen_model` re-checks on a fresh context loaded with the solver assertions
and extended with exactly the two axioms `ForAll x y, ULE (evm_div x y) x`
and `ForAll x y, ULE (evm_mod x y) y` under the assertion timeout, and the
recorded entry is determined by that re-check's verdict. -/
theorem invalid_model_triggers_axiom_recheck (args : Args) (env : GenEnv)
    (m : Model) (h1 : checkPhase1 env = .sat m)
    (h2 : is_valid_model m = false) :
    SolverCall.check3 args.solver_timeout_assertion
        [SmtAxiom.divULE, SmtAxiom.modULE] ∈ (gen_model args env).1 ∧
      inProcessRes env = env.res3 ∧
      (gen_model args env).2 =
        recordEntry (subprocessRes args env env.res3) := by
  have hip : inProcessRes env = env.res3 := by
    unfold inProcessRes; rw [h1]; simp [h2]
  refine ⟨?_, hip, ?_⟩
  · simp [gen_model, h1, h2, sol3Axioms]
  · simp [gen_model, hip]

/-- Witness for C5 at a concrete input: an initial `sat` whose model
assigns `evm_div` triggers the axiomatized re-check, whose `unsat` verdict
records nothing. -/
theorem invalid_model_triggers_axiom_recheck_witness :
    SolverCall.check3 60000 [SmtAxiom.divULE, SmtAxiom.modULE] ∈
        (gen_model ⟨2, 1000, 60000, false⟩
          ⟨.sat ["evm_div"], .unsat, .unsat, ""⟩).1 ∧
      inProcessRes ⟨.sat ["evm_div"], .unsat, .unsat, ""⟩ = .unsat ∧
      (gen_model ⟨2, 1000, 60000, false⟩
          ⟨.sat ["evm_div"], .unsat, .unsat, ""⟩).2 =
        recordEntry (subprocessRes ⟨2, 1000, 60000, false⟩
          ⟨.sat ["evm_div"], .unsat, .unsat, ""⟩ .unsat) :=
  invalid_model_triggers_axiom_recheck ⟨2, 1000, 60000, false⟩
    ⟨.sat ["evm_div"], .unsat, .unsat, ""⟩ ["evm_div"] rfl (by decide)

/-- C6: every recorded counterexample entry that carries a model assigns
only to declarations whose name does not start with `evm_`; and if even
the axiomatized re-check returns a model interpreting an `evm_*`
declaration, the recorded entry carries no model (it is reported as
`Counterexample: unknown`). -/
theorem recorded_models_valid (args : Args) (env : GenEnv) :
    (∀ m : Model,
      (gen_model args env).2 = some (some m) → is_valid_model m = true) ∧
    (∀ m m3 : Model, checkPhase1 env = .sat m → is_valid_model m = false →
      env.res3 = .sat m3 → is_valid_model m3 = false →
      (gen_model args env).2 = some none) := by
  constructor
  · intro m hm
    simp only [gen_model] at hm
    cases hr : subprocessRes args env (inProcessRes env) with
    | sat m' =>
        rw [hr] at hm
        cases hv : is_valid_model m' with
        | true =>
            simp [recordEntry, hv] at hm
            subst hm
            exact hv
        | false => simp [recordEntry, hv] at hm
    | unsat => rw [hr] at hm; simp [recordEntry] at hm
    | unknown => rw [hr] at hm; simp [recordEntry] at hm
  · intro m m3 hm hv h3 hv3
    have hip : inProcessRes env = .sat m3 := by
      unfold inProcessRes; rw [hm]; simp [hv, h3]
    have hsp : subprocessRes args env (inProcessRes env) = .sat m3 := by
      rw [hip]; rfl
    simp [gen_model, hsp, recordEntry, hv3]

/-- Witness for C6 at a concrete input: with an invalid initial model and
an invalid axiomatized re-check model, the recorded entry has no model. -/
theorem recorded_models_valid_witness :
    (gen_model ⟨2, 1000, 60000, false⟩
      ⟨.sat ["evm_div"], .unsat, .sat ["evm_mod"], ""⟩).2 = some none :=
  (recorded_models_valid ⟨2, 1000, 60000, false⟩
      ⟨.sat ["evm_div"], .unsat, .sat ["evm_mod"], ""⟩).2
    ["evm_div"] ["evm_mod"] rfl (by decide) rfl (by decide)

/-- C7: when the result is still unknown after the in-process retries and
the solver-subprocess option is enabled, `gen_model` runs the external
solver on an SMT2 file of the assertions and accepts its verdict in both
directions: an external `unsat` records no counterexample entry, an
external `sat` records one. -/
theorem subprocess_verdict_accepted (args : Args) (env : GenEnv)
    (hu : inProcessRes env = .unknown) (hs : args.solver_subprocess = true) :
    SolverCall.runZ3 "QF_AUFBV" ∈ (gen_model args env).1 ∧
      (env.z3Out = "unsat" → (gen_model args env).2 = none) ∧
      (env.z3Out = "sat" → (gen_model args env).2 = some none) := by
  refine ⟨?_, ?_, ?_⟩
  · simp [gen_model, hu, hs]
  · intro hz
    have hsp : subprocessRes args env (inProcessRes env) = .unsat := by
      rw [hu]; unfold subprocessRes; simp [hs, hz]
    simp [gen_model, hsp, recordEntry]
  · intro hz
    have hsp : subprocessRes args env (inProcessRes env) = .unknown := by
      rw [hu]; unfold subprocessRes; simp [hs, hz]
    simp [gen_model, hsp, recordEntry]

/-- Witness for C7 at concrete inputs: with all in-process checks unknown
and the subprocess enabled, external `unsat` records nothing and external
`sat` records a model-less entry. -/
theorem subprocess_verdict_accepted_witness :
    (gen_model ⟨2, 1000, 60000, true⟩
        ⟨.unknown, .unknown, .unknown, "unsat"⟩).2 = none ∧
      (gen_model ⟨2, 1000, 60000, true⟩
        ⟨.unknown, .unknown, .unknown, "sat"⟩).2 = some none :=
  ⟨(subprocess_verdict_accepted ⟨2, 1000, 60000, true⟩
      ⟨.unknown, .unknown, .unknown, "unsat"⟩ rfl rfl).2.1 rfl,
   (subprocess_verdict_accepted ⟨2, 1000, 60000, true⟩
      ⟨.unknown, .unknown, .unknown, "sat"⟩ rfl rfl).2.2 rfl⟩

/-- Splitting a character list on `:` (Python `str.split(':')`): always
yields at least one (possibly empty) field. -/
def splitOnColon : List Char → List (List Char)
  | [] => [[]]
  | c :: cs =>
      let r := splitOnColon cs
      if c = ':' then [] :: r
      else
        match r with
        | [] => [[c]]
        | h :: t => (c :: h) :: t

/-- Numeric value of a list of decimal digits. -/
def digitsVal (ds : List Char) : Nat :=
  ds.foldl (fun a c => a * 10 + (c.toNat - 48)) 0

/-- Python `int(s)` on a source-map field: an optional sign followed by
decimal digits; `none` models the `ValueError` raised on anything else. -/
def pyIntL : List Char → Option Int
  | [] => none
  | '-' :: ds =>
      if ds ≠ [] ∧ ds.all Char.isDigit then some (-(digitsVal ds : Int))
      else none
  | '+' :: ds =>
      if ds ≠ [] ∧ ds.all Char.isDigit then some ((digitsVal ds : Int))
      else none
  | ds =>
      if ds.all Char.isDigit then some ((digitsVal ds : Int)) else none

/-- The loop state of `add_srcmap` (lines 60-67): the locals `start`,
`length`, `jump`, `mdepth` are initialized before the loop; the
initializer at line 60 binds a variable named `fileid` — which the loop
never reads — while the loop body reads and assigns `srcidx`, which
therefore starts unbound (`none`). -/
structure SrcMapSt where
  start : Int
  length : Int
  fileid : Int
  srcidx : Option Int
  jump : List Char
  mdepth : Int
deriving DecidableEq, Repr

/-- The initial local bindings of `add_srcmap` (line 60):
`start, length, fileid, jump, mdepth = 0, 0, 0, '-', 0`, with `srcidx`
unbound. -/
def srcMapInit : SrcMapSt := ⟨0, 0, 0, none, ['-'], 0⟩

/-- Reading a Python local that may be unbound, or using a parse result
that may have raised. -/
def localGet (o : Option α) (err : String) : Except String α :=
  match o with
  | some v => .ok v
  | none => .error err

/-- One iteration of the loop of `add_srcmap` (lines 61-67): split the
entry on `:`, pad with five empty fields, and compute each of the five
walked values, inheriting the previous value on an empty field.  Reading
`srcidx` on an empty third field when no previous entry assigned it raises
`UnboundLocalError`; a non-numeric non-empty numeric field raises
`ValueError`.  Returns `(start, length, srcidx, jump, mdepth)`. -/
def srcmapStep (st : SrcMapSt) (sm : String) :
    Except String (Int × Int × Int × List Char × Int) := do
  let arr := splitOnColon sm.data ++ [[], [], [], [], []]
  let start ← if arr.getD 0 [] = [] then pure st.start
    else localGet (pyIntL (arr.getD 0 [])) "ValueError: invalid literal for int()"
  let length ← if arr.getD 1 [] = [] then pure st.length
    else localGet (pyIntL (arr.getD 1 [])) "ValueError: invalid literal for int()"
  let srcidx ← if arr.getD 2 [] = [] then
      localGet st.srcidx
        "UnboundLocalError: local variable srcidx referenced before assignment"
    else localGet (pyIntL (arr.getD 2 [])) "ValueError: invalid literal for int()"
  let jump := if arr.getD 3 [] = [] then st.jump else arr.getD 3 []
  let mdepth ← if arr.getD 4 [] = [] then pure st.mdepth
    else localGet (pyIntL (arr.getD 4 [])) "ValueError: invalid literal for int()"
  pure (start, length, srcidx, jump, mdepth)

/-- The loop of `add_srcmap` (lines 61-76) over all source-map entries,
collecting the five walked field values per instruction index.  The stored
`SrcMap(srctext, jump, mdepth)` additionally derives `srctext` from
`(start, length, srcidx)` by reading the source file, which is file IO and
is outside the walked-field recurrence the claim describes. -/
def add_srcmap_walk (st : SrcMapSt) :
    List String → Except String (List (Int × Int × Int × List Char × Int))
  | [] => .ok []
  | sm :: rest => do
    let v ← srcmapStep st sm
    let tl ← add_srcmap_walk
      ⟨v.1, v.2.1, st.fileid, some v.2.2.1, v.2.2.2.1, v.2.2.2.2⟩ rest
    pure (v :: tl)

/-- C9 (code bug): evaluated at the failing input `[""]` — a source map
whose first entry has all fields empty — `add_srcmap` reads the unassigned
local `srcidx` (the initializer at line 60 binds `fileid` instead) and
raises `UnboundLocalError`, instead of assigning the five inherited
defaults `(0, 0, 0, '-', 0)` as the inherit-on-empty rule requires;
entries whose third field is non-empty from the first instruction on are
walked as the rule describes. -/
theorem add_srcmap_unbound_srcidx :
    add_srcmap_walk srcMapInit [""] =
      .error "UnboundLocalError: local variable srcidx referenced before assignment" ∧
      srcMapInit.fileid = 0 ∧ srcMapInit.srcidx = none ∧
      add_srcmap_walk srcMapInit ["1:2:3:o:4", "::"] =
        .ok [(1, 2, 3, ['o'], 4), (1, 2, 3, ['o'], 4)] := by
  refine ⟨rfl, rfl, rfl, rfl⟩

section ExecModel

variable {P C S Pa L Cn Sh St Ca D : Type}

/-- Symbolic 256-bit terms as far as the driver builds them: fresh
symbolic words (`BitVec(name, 256)`), concrete words (`BitVecVal`), and
the two renderings of the `ADD` smart constructor. -/
inductive TermE where
  | bv (name : String) (width : Nat)
  | lit (v : Nat) (width : Nat)
  | bvadd (a b : TermE)
  | ufadd (a b : TermE)
deriving DecidableEq, Repr

/-- Modelled from the spec: the per-operator dispatch options of the
symbolic value layer (§4.1, §6); `main` sets `add := not args.no_smt_add`
(line 433). -/
structure EvmOptions where
  add : Bool
deriving DecidableEq, Repr

/-- Modelled from the spec: the `arith` smart constructor of `sevm` for
`ADD` (§4.1) — with `add: native` it emits the native bitvector addition,
otherwise it calls the uninterpreted `f_add`. -/
def arithADD (opts : EvmOptions) (a b : TermE) : TermE :=
  if opts.add then .bvadd a b else .ufadd a b

/-- Modelled from the spec: the `State()` of `sevm` holding stack and
memory (§3) — both initially empty. -/
structure MachineSt where
  stack : List TermE
  memory : List TermE
deriving DecidableEq, Repr

/-- Modelled from the spec: a fresh `State()` has an empty stack and an
empty memory. -/
def MachineSt.init : MachineSt := ⟨[], []⟩

/-- Modelled from the spec: Python `copy.deepcopy` yields a structurally
equal copy — value-level identity in a pure embedding. -/
def deepcopy {α : Type} (x : α) : α := x

/-- Modelled from the spec: Python `dict.copy` — a shallow copy holding
the same entries (the values are shared). -/
def dictCopy {κ ν : Type} (x : List (κ × ν)) : List (κ × ν) := x

/-- Modelled from the spec: the `Exec` record of `sevm` (§3), with exactly
the fields set by the constructor call at lines 245-272 of `run`.  The
per-account maps are association lists keyed by the symbolic account
address; the fields whose structure the driver never inspects are type
parameters. -/
structure ExecSt (P C S Pa L Cn Sh St Ca D : Type) where
  pgm : List (TermE × P)
  code : List (TermE × C)
  storage : List (TermE × S)
  balance : List (TermE × TermE)
  calldata : D
  callvalue : TermE
  caller : TermE
  this : TermE
  pc : Nat
  st : MachineSt
  jumpis : List (Nat × Bool)
  output : Option TermE
  symbolic : Bool
  path : Pa
  log : L
  cnts : Cn
  sha3s : Sh
  storages : St
  calls : Ca
  failed : Bool
  error : String

/-- The `Exec` constructed by `run` for the symbolic test (lines 225-272):
fresh `msg_value` (line 225) and `this_balance` (line 231) words, the
balance map replaced by the singleton for `this` holding their symbolic
sum (line 249), shallow copies of the program and code maps (lines
246-247), deep copies of the carried bookkeeping (lines 248, 263-269),
and reset `pc`, machine state, `jumpis` and `output` (lines 256-259). -/
def mkTestExec (opts : EvmOptions)
    (setup_ex : ExecSt P C S Pa L Cn Sh St Ca D) (cd : D) :
    ExecSt P C S Pa L Cn Sh St Ca D :=
  let callvalue := TermE.bv "msg_value" 256
  let balance := TermE.bv "this_balance" 256
  { pgm := dictCopy setup_ex.pgm,
    code := dictCopy setup_ex.code,
    storage := deepcopy setup_ex.storage,
    balance := [(setup_ex.this, arithADD opts balance callvalue)],
    calldata := cd,
    callvalue := callvalue,
    caller := setup_ex.caller,
    this := setup_ex.this,
    pc := 0,
    st := MachineSt.init,
    jumpis := [],
    output := none,
    symbolic := true,
    path := deepcopy setup_ex.path,
    log := deepcopy setup_ex.log,
    cnts := deepcopy setup_ex.cnts,
    sha3s := deepcopy setup_ex.sha3s,
    storages := deepcopy setup_ex.storages,
    calls := deepcopy setup_ex.calls,
    failed := setup_ex.failed,
    error := setup_ex.error }

/-- C10: the test `Exec` shares the program and code maps with the setUp
state, is value-equal on the deep-copied storage, path, log, cnts, sha3s,
storages and calls, replaces the balance map by the singleton mapping
`this` to the symbolic sum of the fresh `this_balance` and the fresh
callvalue `msg_value` — independently of the setUp state's balance — and
resets pc, stack, memory, jumpis and output to their initial values
(while carrying over the `failed` and `error` fields). -/
theorem test_exec_frame (opts : EvmOptions)
    (setup_ex : ExecSt P C S Pa L Cn Sh St Ca D) (cd : D) :
    (mkTestExec opts setup_ex cd).pgm = setup_ex.pgm ∧
    (mkTestExec opts setup_ex cd).code = setup_ex.code ∧
    (mkTestExec opts setup_ex cd).storage = setup_ex.storage ∧
    (mkTestExec opts setup_ex cd).path = setup_ex.path ∧
    (mkTestExec opts setup_ex cd).log = setup_ex.log ∧
    (mkTestExec opts setup_ex cd).cnts = setup_ex.cnts ∧
    (mkTestExec opts setup_ex cd).sha3s = setup_ex.sha3s ∧
    (mkTestExec opts setup_ex cd).storages = setup_ex.storages ∧
    (mkTestExec opts setup_ex cd).calls = setup_ex.calls ∧
    (mkTestExec opts setup_ex cd).calldata = cd ∧
    (mkTestExec opts setup_ex cd).balance =
      [(setup_ex.this,
        arithADD opts (TermE.bv "this_balance" 256)
          (TermE.bv "msg_value" 256))] ∧
    (∀ bal2, mkTestExec opts { setup_ex with balance := bal2 } cd =
      mkTestExec opts setup_ex cd) ∧
    (mkTestExec opts setup_ex cd).pc = 0 ∧
    (mkTestExec opts setup_ex cd).st = ⟨[], []⟩ ∧
    (mkTestExec opts setup_ex cd).jumpis = [] ∧
    (mkTestExec opts setup_ex cd).output = none ∧
    (mkTestExec opts setup_ex cd).failed = setup_ex.failed ∧
    (mkTestExec opts setup_ex cd).error = setup_ex.error :=
  ⟨rfl, rfl, rfl, rfl, rfl, rfl, rfl, rfl, rfl, rfl, rfl,
    fun bal2 => rfl, rfl, rfl, rfl, rfl, rfl, rfl⟩

end ExecModel

/-- A cell of the symbolic calldata vector: `cdInit i` is the initial
uninterpreted byte `cd(i)` (lines 157-161), `conB v` a concrete byte of a
`BitVecVal`, and `symB name width idx` byte `idx` (big-endian, from the
most significant) of the fresh symbolic bitvector `BitVec(name, width)`. -/
inductive CDByte where
  | cdInit (i : Nat)
  | conB (v : Nat)
  | symB (name : String) (width : Nat) (idx : Nat)
deriving DecidableEq, Repr

/-- A value handed to `wstore`: a concrete `BitVecVal(v, 8*size)` or a
fresh symbolic `BitVec(name, 8*size)`. -/
inductive CDVal where
  | conV (v : Nat)
  | symV (name : String)
deriving DecidableEq, Repr

/-- Modelled from the spec: the byte sequence a `wstore` of width `size`
places — `size` bytes in big-endian order (§4.4): byte `k` of a concrete
value is `(v / 256^(size-1-k)) % 256`; byte `k` of a symbolic value is the
`k`-th most significant byte of the named bitvector. -/
def valBytes (size : Nat) : CDVal → List CDByte
  | .conV v => (List.range size).map (fun k => .conB (v / 256 ^ (size - 1 - k) % 256))
  | .symV name => (List.range size).map (fun k => .symB name (8 * size) k)

/-- Modelled from the spec: `wstore` of `sevm` (not under `src/`) — writes
of width `size` at offset `loc` place `size` bytes over the existing cells
of the fixed-length calldata vector (§4.4). -/
def wstore (cd : List CDByte) (loc size : Nat) (val : CDVal) : List CDByte :=
  cd.take loc ++ valBytes size val ++ cd.drop (loc + size)

/-- An ABI input parameter `{name, type}` (field names `pname`/`ptype`
stand for the source's `param['name']`/`param['type']`). -/
structure AbiParam where
  pname : String
  ptype : String
deriving DecidableEq, Repr

/-- An ABI entry `{type, name, inputs}` (field names `itype`/`iname` stand
for `item['type']`/`item['name']`). -/
structure AbiItem where
  itype : String
  iname : String
  inputs : List AbiParam
deriving DecidableEq, Repr

/-- Structural string-suffix test (Python `str.endswith`). -/
def strEndsWith (s pat : String) : Bool :=
  listStartsWith s.data.reverse pat.data.reverse

/-- Greedy run of decimal digits at the head of a character list
(the regex pieces `[0-9]*` / `[0-9]+`). -/
def takeDigits : List Char → List Char × List Char
  | [] => ([], [])
  | c :: cs =>
      if c.isDigit then
        let (d, r) := takeDigits cs
        (c :: d, r)
      else ([], c :: cs)

/-- Matching a literal at the head of a character list, returning the
rest. -/
def dropLit : List Char → List Char → Option (List Char)
  | [], cs => some cs
  | _ :: _, [] => none
  | l :: ls, c :: cs => if c = l then dropLit ls cs else none

/-- One anchored attempt of the alternation
`u?int[0-9]*|address|bool|bytes[0-9]+` of the type regex at line 182
(alternatives tried left to right, digits matched greedily). -/
def matchBaseAt (cs : List Char) : Option (String × List Char) :=
  match dropLit "uint".data cs with
  | some r =>
      let (d, r') := takeDigits r
      some ("uint" ++ String.mk d, r')
  | none =>
  match dropLit "int".data cs with
  | some r =>
      let (d, r') := takeDigits r
      some ("int" ++ String.mk d, r')
  | none =>
  match dropLit "address".data cs with
  | some r => some ("address", r)
  | none =>
  match dropLit "bool".data cs with
  | some r => some ("bool", r)
  | none =>
  match dropLit "bytes".data cs with
  | some r =>
      match takeDigits r with
      | ([], _) => none
      | (d, r') => some ("bytes" ++ String.mk d, r')
  | none => none

/-- The optional capture `(\[([0-9]+)\])?` following the base type:
a bracketed non-empty digit run yields the array dimension, anything else
leaves the optional group empty. -/
def matchDimAt (cs : List Char) : Option Nat :=
  match cs with
  | '[' :: r =>
      match takeDigits r with
      | ([], _) => none
      | (d, r') =>
          match r' with
          | ']' :: _ => some (digitsVal d)
          | _ => none
  | _ => none

/-- `re.search` of the type pattern: scan start positions left to right
and return `(group(1), group(3))` of the first match. -/
def typeSearch : List Char → Option (String × Option Nat)
  | [] => none
  | c :: cs =>
      match matchBaseAt (c :: cs) with
      | some (base, r) => some (base, matchDimAt r)
      | none => typeSearch cs

/-- The regex match of line 182 applied to a parameter type string. -/
def typeMatch (t : String) : Option (String × Option Nat) :=
  typeSearch t.data

/-- How the `if` chain at lines 174-191 classifies a parameter type:
dynamic `bytes`/`string` (`dynB`), primitive with matched base type
(`prim`), or fixed-size array (`arr`); `none` for the rejected
`tuple` / dynamic-array / unmatched types. -/
inductive ParamKind where
  | dynB
  | prim (typ : String)
  | arr (typ : String) (dim : Nat)
deriving DecidableEq, Repr

/-- The classification implied by the branch order of lines 174-191. -/
def paramKind (p : AbiParam) : Option ParamKind :=
  if p.ptype = "tuple" then none
  else if p.ptype = "bytes" ∨ p.ptype = "string" then some .dynB
  else if strEndsWith p.ptype "[]" then none
  else
    match typeMatch p.ptype with
    | some (typ, some dim) => some (.arr typ dim)
    | some (typ, none) => some (.prim typ)
    | none => none

/-- The inner loop at lines 187-189: one 32-byte head word per array
element, named `p_<name>[<idx>]_<typ>`. -/
def arrLoop (pname typ : String) : List Nat → List CDByte → Nat →
    List CDByte × Nat
  | [], cd, offset => (cd, offset)
  | i :: is, cd, offset =>
      arrLoop pname typ is
        (wstore cd (4 + offset) 32
          (.symV ("p_" ++ pname ++ "[" ++ toString i ++ "]_" ++ typ)))
        (offset + 32)

/-- The first parameter pass of `run` (lines 171-192): head words for
primitive and fixed-array parameters, `tba` entries recording the head
slot of each `bytes`/`string` parameter. -/
def pass1 (cd : List CDByte) (tba : List (Nat × AbiParam)) (offset : Nat) :
    List AbiParam →
    Except String (List CDByte × List (Nat × AbiParam) × Nat)
  | [] => .ok (cd, tba, offset)
  | p :: ps =>
      if p.ptype = "tuple" then .error "Not supported"
      else if p.ptype = "bytes" ∨ p.ptype = "string" then
        pass1 cd (tba ++ [(4 + offset, p)]) (offset + 32) ps
      else if strEndsWith p.ptype "[]" then
        .error "Not supported variable sized arrays"
      else
        match typeMatch p.ptype with
        | none => .error "Unknown type"
        | some (typ, some dim) =>
            let r := arrLoop p.pname typ (List.range dim) cd offset
            pass1 r.1 tba r.2 ps
        | some (typ, none) =>
            pass1
              (wstore cd (4 + offset) 32
                (.symV ("p_" ++ p.pname ++ "_" ++ typ)))
              tba (offset + 32) ps

/-- Python `arrlen` lookup (`param_name not in arrlen`, line 200). -/
def lookupArr (arrlen : List (String × Nat)) (n : String) : Option Nat :=
  (arrlen.find? (fun q => q.1 == n)).map (·.2)

/-- Lines 200-204: the byte length of a dynamic parameter — the
`--array-lengths` entry when given, the loop bound otherwise. -/
def dynSize (args : Args) (arrlen : List (String × Nat)) (p : AbiParam) :
    Nat :=
  match lookupArr arrlen p.pname with
  | none => args.loop
  | some s => s

/-- Line 212: the tail data length `int((size + 31) / 32) * 32`, i.e. the
size padded up to a multiple of 32. -/
def dynPad (args : Args) (arrlen : List (String × Nat)) (p : AbiParam) :
    Nat :=
  (dynSize args arrlen p + 31) / 32 * 32

/-- The second parameter pass of `run` (lines 194-219): for each recorded
`bytes`/`string` parameter, write the concrete tail offset into its head
slot, then the concrete 32-byte length and the fresh symbolic tail data
(padded to 32) at the tail. -/
def pass2 (args : Args) (arrlen : List (String × Nat)) (cd : List CDByte)
    (offset : Nat) (dyn : List String) :
    List (Nat × AbiParam) →
    Except String (List CDByte × Nat × List String)
  | [] => .ok (cd, offset, dyn)
  | (loc, p) :: rest =>
      let size := dynSize args arrlen p
      let dyn2 := dyn ++ ["|" ++ p.pname ++ "|=" ++ toString size]
      if p.ptype = "bytes" ∨ p.ptype = "string" then
        let cd1 := wstore cd loc 32 (.conV offset)
        let size_pad_right := (size + 31) / 32 * 32
        let cd2 := wstore cd1 (4 + offset) 32 (.conV size)
        let off1 := offset + 32
        if size_pad_right > 0 then
          pass2 args arrlen
            (wstore cd2 (4 + off1) size_pad_right
              (.symV ("p_" ++ p.pname ++ "_" ++ p.ptype)))
            (off1 + size_pad_right) dyn2 rest
        else
          pass2 args arrlen cd2 off1 dyn2 rest
      else .error "not feasible"

/-- The initial 10,000-byte calldata vector of uninterpreted bytes
`cd(i)` (lines 157-161). -/
def initCalldata : List CDByte :=
  (List.range 10000).map .cdInit

/-- The body of the `for item in abi` loop (lines 167-219) for one ABI
entry: matching function entries run the two parameter passes over the
accumulated calldata and bound list; others leave the state unchanged. -/
def processItem (args : Args) (arrlen : List (String × Nat))
    (funname : String) (state : List CDByte × List String)
    (item : AbiItem) : Except String (List CDByte × List String) :=
  if item.itype == "function" && item.iname == funname then
    match pass1 state.1 [] 0 item.inputs with
    | .error e => .error e
    | .ok (cd1, tba, off) =>
        match pass2 args arrlen cd1 off state.2 tba with
        | .error e => .error e
        | .ok (cd2, _, dyn2) => .ok (cd2, dyn2)
  else .ok state

/-- The `for item in abi` loop itself. -/
def processAbi (args : Args) (arrlen : List (String × Nat))
    (funname : String) (state : List CDByte × List String) :
    List AbiItem → Except String (List CDByte × List String)
  | [] => .ok state
  | item :: rest =>
      match processItem args arrlen funname state item with
      | .error e => .error e
      | .ok st2 => processAbi args arrlen funname st2 rest

/-- The calldata construction of `run` (lines 157-219): the 10,000-byte
vector of uninterpreted bytes, the concrete 4-byte selector written at
offset 0, then the per-item parameter passes. -/
def buildCalldata (args : Args) (arrlen : List (String × Nat))
    (abi : List AbiItem) (funname : String) (funselector : Nat) :
    Except String (List CDByte × List String) :=
  processAbi args arrlen funname
    (wstore initCalldata 0 4 (.conV funselector), []) abi

/-- A `wstore` call abstracted by its `(offset, size, value)`. -/
abbrev CDWrite := Nat × Nat × CDVal

/-- Sequential application of a list of `wstore` calls. -/
def applyWrites (cd : List CDByte) : List CDWrite → List CDByte
  | [] => cd
  | w :: ws => applyWrites (wstore cd w.1 w.2.1 w.2.2) ws

/-- The write `w` covers byte index `i`. -/
def covers (w : CDWrite) (i : Nat) : Prop :=
  w.1 ≤ i ∧ i < w.1 + w.2.1

instance (w : CDWrite) (i : Nat) : Decidable (covers w i) := by
  unfold covers; infer_instance

/-- Two writes touch disjoint byte ranges. -/
def wdisj (a b : CDWrite) : Prop :=
  a.1 + a.2.1 ≤ b.1 ∨ b.1 + b.2.1 ≤ a.1

/-- The first write of the list covering index `i`, if any. -/
def findW (ws : List CDWrite) (i : Nat) : Option CDWrite :=
  ws.find? (fun w => decide (covers w i))

/-- The head writes emitted by the inner array loop (lines 187-189), in
order. -/
def arrWrites (pname typ : String) : List Nat → Nat → List CDWrite
  | [], _ => []
  | i :: is, off =>
      (4 + off, 32,
        .symV ("p_" ++ pname ++ "[" ++ toString i ++ "]_" ++ typ)) ::
        arrWrites pname typ is (off + 32)

/-- Number of 32-byte head slots a parameter occupies. -/
def slotCount (p : AbiParam) : Nat :=
  match paramKind p with
  | some .dynB => 1
  | some (.prim _) => 1
  | some (.arr _ dim) => dim
  | none => 0

/-- Total number of 32-byte head slots of a parameter list. -/
def slotsSum (ps : List AbiParam) : Nat := (ps.map slotCount).sum

/-- The writes the first parameter pass performs, in order. -/
def p1writes (off : Nat) : List AbiParam → List CDWrite
  | [] => []
  | p :: ps =>
      match paramKind p with
      | some .dynB => p1writes (off + 32) ps
      | some (.prim typ) =>
          (4 + off, 32, .symV ("p_" ++ p.pname ++ "_" ++ typ)) ::
            p1writes (off + 32) ps
      | some (.arr typ dim) =>
          arrWrites p.pname typ (List.range dim) off ++
            p1writes (off + 32 * dim) ps
      | none => []

/-- The `tba` entries the first parameter pass collects, in order. -/
def p1tba (off : Nat) : List AbiParam → List (Nat × AbiParam)
  | [] => []
  | p :: ps =>
      match paramKind p with
      | some .dynB => (4 + off, p) :: p1tba (off + 32) ps
      | some (.prim _) => p1tba (off + 32) ps
      | some (.arr _ dim) => p1tba (off + 32 * dim) ps
      | none => []

/-- The writes the second parameter pass performs, in order: head pointer,
tail length, tail data (when non-empty), per recorded dynamic parameter. -/
def p2writes (args : Args) (arrlen : List (String × Nat)) :
    Nat → List (Nat × AbiParam) → List CDWrite
  | _, [] => []
  | tailOff, (loc, p) :: rest =>
      (loc, 32, .conV tailOff) ::
        (4 + tailOff, 32, .conV (dynSize args arrlen p)) ::
        ((if dynPad args arrlen p > 0 then
            [(4 + tailOff + 32, dynPad args arrlen p,
              CDVal.symV ("p_" ++ p.pname ++ "_" ++ p.ptype))]
          else []) ++
          p2writes args arrlen (tailOff + 32 + dynPad args arrlen p) rest)

/-- Total tail length of the recorded dynamic parameters. -/
def tailSizeT (args : Args) (arrlen : List (String × Nat)) :
    List (Nat × AbiParam) → Nat
  | [] => 0
  | (_, p) :: rest =>
      32 + dynPad args arrlen p + tailSizeT args arrlen rest

/-- The `dyn_param_size` strings appended by the second pass, in order. -/
def dynStrs (args : Args) (arrlen : List (String × Nat)) :
    List (Nat × AbiParam) → List String
  | [] => []
  | (_, p) :: rest =>
      ("|" ++ p.pname ++ "|=" ++ toString (dynSize args arrlen p)) ::
        dynStrs args arrlen rest

/-- Following the spec's words (§6, calldata ABI layout): the head area is
one 32-byte slot per parameter in declaration order — a fresh symbolic
word `p_<name>_<type>` for a primitive, one fresh word
`p_<name>[<idx>]_<type>` per element for a fixed-size array, and for
`bytes`/`string` the concrete offset of its tail; the tail offsets advance
by each preceding tail's length-word plus padded data. -/
def specHeadWrites (args : Args) (arrlen : List (String × Nat)) :
    Nat → Nat → List AbiParam → List CDWrite
  | _, _, [] => []
  | off, tailOff, p :: ps =>
      match paramKind p with
      | some .dynB =>
          (4 + off, 32, .conV tailOff) ::
            specHeadWrites args arrlen (off + 32)
              (tailOff + 32 + dynPad args arrlen p) ps
      | some (.prim typ) =>
          (4 + off, 32, .symV ("p_" ++ p.pname ++ "_" ++ typ)) ::
            specHeadWrites args arrlen (off + 32) tailOff ps
      | some (.arr typ dim) =>
          arrWrites p.pname typ (List.range dim) off ++
            specHeadWrites args arrlen (off + 32 * dim) tailOff ps
      | none => []

/-- Following the spec's words (§6): each `bytes`/`string` tail holds a
32-byte concrete length equal to the configured `arrlen` (defaulting to
the loop bound) followed by a single fresh symbolic byte string
`p_<name>_<type>` padded up to a multiple of 32 bytes; tails are laid out
in declaration order starting right after the head area. -/
def specTailWrites (args : Args) (arrlen : List (String × Nat)) :
    Nat → List AbiParam → List CDWrite
  | _, [] => []
  | tailOff, p :: ps =>
      match paramKind p with
      | some .dynB =>
          (4 + tailOff, 32, .conV (dynSize args arrlen p)) ::
            ((if dynPad args arrlen p > 0 then
                [(4 + tailOff + 32, dynPad args arrlen p,
                  CDVal.symV ("p_" ++ p.pname ++ "_" ++ p.ptype))]
              else []) ++
              specTailWrites args arrlen
                (tailOff + 32 + dynPad args arrlen p) ps)
      | _ => specTailWrites args arrlen tailOff ps

/-- Total tail length of the dynamic parameters of a parameter list. -/
def tailSizeP (args : Args) (arrlen : List (String × Nat)) :
    List AbiParam → Nat
  | [] => 0
  | p :: ps =>
      (if paramKind p = some .dynB then 32 + dynPad args arrlen p else 0) +
        tailSizeP args arrlen ps

/-- Following the spec's words (§6): the complete list of writes making up
the calldata — the concrete 4-byte selector at bytes 0..3, the head area
starting at byte 4, and the tails starting right after the
`32 * <number of slots>` bytes of the head area. -/
def specWrites (args : Args) (arrlen : List (String × Nat))
    (ps : List AbiParam) (selector : Nat) : List CDWrite :=
  (0, 4, .conV selector) ::
    (specHeadWrites args arrlen 0 (32 * slotsSum ps) ps ++
      specTailWrites args arrlen (32 * slotsSum ps) ps)

/-- Following the spec's words (§6): byte `i` of the calldata is the
corresponding byte of the unique layout write covering `i`, and the
untouched uninterpreted byte `cd(i)` elsewhere. -/
def specCalldataByte (args : Args) (arrlen : List (String × Nat))
    (ps : List AbiParam) (selector : Nat) (i : Nat) : CDByte :=
  match findW (specWrites args arrlen ps selector) i with
  | some w => (valBytes w.2.1 w.2.2).getD (i - w.1) (.cdInit i)
  | none => .cdInit i

/-- The 10,000-byte calldata the spec's layout describes. -/
def specCalldata (args : Args) (arrlen : List (String × Nat))
    (ps : List AbiParam) (selector : Nat) : List CDByte :=
  (List.range 10000).map (specCalldataByte args arrlen ps selector)

lemma valBytes_length (size : Nat) (v : CDVal) :
    (valBytes size v).length = size := by
  cases v <;> simp [valBytes]

lemma wstore_length (cd : List CDByte) (loc size : Nat) (v : CDVal)
    (h : loc + size ≤ cd.length) :
    (wstore cd loc size v).length = cd.length := by
  simp [wstore, valBytes_length]
  omega

lemma wstore_get (cd : List CDByte) (loc size : Nat) (v : CDVal)
    (h : loc + size ≤ cd.length) (i : Nat) :
    (wstore cd loc size v).get? i =
      if loc ≤ i ∧ i < loc + size then (valBytes size v).get? (i - loc)
      else cd.get? i := by
  have htake : (cd.take loc).length = loc := by
    rw [List.length_take]; omega
  unfold wstore
  rw [List.append_assoc]
  by_cases h1 : i < loc
  · rw [List.get?_append (by omega : i < (cd.take loc).length)]
    rw [List.get?_take h1, if_neg (by omega)]
  · rw [List.get?_append_right (by omega : (cd.take loc).length ≤ i), htake]
    by_cases h2 : i < loc + size
    · rw [List.get?_append
        (by rw [valBytes_length]; omega : i - loc < (valBytes size v).length)]
      rw [if_pos (by omega)]
    · rw [List.get?_append_right
        (by rw [valBytes_length]; omega : (valBytes size v).length ≤ i - loc)]
      rw [valBytes_length, List.get?_drop, if_neg (by omega)]
      congr 1
      omega

lemma applyWrites_length (ws : List CDWrite) :
    ∀ (cd : List CDByte), (∀ w ∈ ws, w.1 + w.2.1 ≤ cd.length) →
      (applyWrites cd ws).length = cd.length := by
  induction ws with
  | nil => intro cd _; rfl
  | cons w ws ih =>
      intro cd hb
      have hw := hb w (List.mem_cons_self _ _)
      have hlen := wstore_length cd w.1 w.2.1 w.2.2 hw
      rw [applyWrites,
        ih _ (fun q hq => by
          rw [hlen]; exact hb q (List.mem_cons_of_mem _ hq)), hlen]

lemma findW_some (ws : List CDWrite) (i : Nat) (w : CDWrite)
    (h : findW ws i = some w) : w ∈ ws ∧ covers w i := by
  unfold findW at h
  have h1 := List.mem_of_find?_eq_some h
  have h2 := List.find?_some h
  exact ⟨h1, by simpa using h2⟩

lemma findW_none (ws : List CDWrite) (i : Nat) :
    findW ws i = none ↔ ∀ w ∈ ws, ¬ covers w i := by
  unfold findW
  rw [List.find?_eq_none]
  simp

lemma findW_unique (ws : List CDWrite) (i : Nat) (w : CDWrite)
    (hdisj : ws.Pairwise wdisj) (hw : w ∈ ws) (hc : covers w i) :
    findW ws i = some w := by
  induction ws with
  | nil => cases hw
  | cons a ws ih =>
      rw [List.pairwise_cons] at hdisj
      rcases List.mem_cons.mp hw with rfl | hmem
      · unfold findW
        rw [List.find?_cons_of_pos _ (by simpa using hc)]
      · have hna : ¬ covers a i := by
          have hd := hdisj.1 w hmem
          unfold wdisj at hd
          unfold covers at hc ⊢
          omega
        unfold findW
        rw [List.find?_cons_of_neg _ (by simpa using hna)]
        exact ih hdisj.2 hmem

lemma findW_perm (ws ws' : List CDWrite) (h : ws.Perm ws')
    (hdisj : ws.Pairwise wdisj) (i : Nat) :
    findW ws i = findW ws' i := by
  have hdisj' : ws'.Pairwise wdisj :=
    (h.pairwise_iff (fun hab => Or.symm hab)).mp hdisj
  cases hf : findW ws i with
  | some w =>
      obtain ⟨hmem, hc⟩ := findW_some ws i w hf
      exact (findW_unique ws' i w hdisj' (h.mem_iff.mp hmem) hc).symm
  | none =>
      have hnone := (findW_none ws i).mp hf
      exact ((findW_none ws' i).mpr
        (fun w hw => hnone w (h.mem_iff.mpr hw))).symm

lemma applyWrites_get (ws : List CDWrite) :
    ∀ (cd : List CDByte), (∀ w ∈ ws, w.1 + w.2.1 ≤ cd.length) →
      ws.Pairwise wdisj → ∀ i,
      (applyWrites cd ws).get? i =
        match findW ws i with
        | some w => (valBytes w.2.1 w.2.2).get? (i - w.1)
        | none => cd.get? i := by
  induction ws with
  | nil => intro cd _ _ i; rfl
  | cons w ws ih =>
      intro cd hb hdisj i
      rw [List.pairwise_cons] at hdisj
      have hw := hb w (List.mem_cons_self _ _)
      have hlen := wstore_length cd w.1 w.2.1 w.2.2 hw
      rw [applyWrites,
        ih _ (fun q hq => by
          rw [hlen]; exact hb q (List.mem_cons_of_mem _ hq)) hdisj.2 i]
      by_cases hc : covers w i
      · have hfcons : findW (w :: ws) i = some w := by
          unfold findW
          rw [List.find?_cons_of_pos _ (by simpa using hc)]
        have hfws : findW ws i = none := by
          rw [findW_none]
          intro q hq hcq
          have hd := hdisj.1 q hq
          unfold wdisj at hd
          unfold covers at hc hcq
          omega
        simp only [hfws, hfcons]
        rw [wstore_get cd w.1 w.2.1 w.2.2 hw i,
          if_pos (show w.1 ≤ i ∧ i < w.1 + w.2.1 from hc)]
      · have hfcons : findW (w :: ws) i = findW ws i := by
          unfold findW
          rw [List.find?_cons_of_neg _ (by simpa using hc)]
        rw [hfcons]
        cases hf : findW ws i with
        | some q => rfl
        | none =>
            simp only [hf]
            rw [wstore_get cd w.1 w.2.1 w.2.2 hw i,
              if_neg (show ¬(w.1 ≤ i ∧ i < w.1 + w.2.1) from hc)]

lemma arrLoop_spec (pname typ : String) (idxs : List Nat) :
    ∀ (cd : List CDByte) (off : Nat),
      arrLoop pname typ idxs cd off =
        (applyWrites cd (arrWrites pname typ idxs off),
          off + 32 * idxs.length) := by
  induction idxs with
  | nil => intro cd off; simp [arrLoop, arrWrites, applyWrites]
  | cons i is ih =>
      intro cd off
      rw [arrLoop, ih, arrWrites]
      refine Prod.ext rfl ?_
      simp [List.length_cons]
      omega

lemma pass1_spec (ps : List AbiParam) :
    ∀ (cd : List CDByte) (tba : List (Nat × AbiParam)) (off : Nat),
      (∀ p ∈ ps, (paramKind p).isSome) →
      pass1 cd tba off ps =
        .ok (applyWrites cd (p1writes off ps), tba ++ p1tba off ps,
          off + 32 * slotsSum ps) := by
  induction ps with
  | nil =>
      intro cd tba off _
      simp [pass1, p1writes, p1tba, slotsSum, applyWrites]
  | cons p ps ih =>
      intro cd tba off hsup
      have hrest : ∀ q ∈ ps, (paramKind q).isSome :=
        fun q hq => hsup q (List.mem_cons_of_mem _ hq)
      have hp := hsup p (List.mem_cons_self _ _)
      by_cases ht : p.ptype = "tuple"
      · exfalso
        unfold paramKind at hp
        rw [if_pos ht] at hp
        simp at hp
      by_cases hb : p.ptype = "bytes" ∨ p.ptype = "string"
      · have hpk : paramKind p = some .dynB := by
          unfold paramKind
          rw [if_neg ht, if_pos hb]
        have h1 : p1writes off (p :: ps) = p1writes (off + 32) ps := by
          simp only [p1writes, hpk]
        have h2 : p1tba off (p :: ps) = (4 + off, p) :: p1tba (off + 32) ps := by
          simp only [p1tba, hpk]
        have h3 : slotsSum (p :: ps) = 1 + slotsSum ps := by
          simp only [slotsSum, slotCount, hpk, List.map_cons, List.sum_cons]
        simp only [pass1, if_neg ht, if_pos hb]
        rw [ih _ _ _ hrest, h1, h2, h3]
        rw [List.append_assoc, List.singleton_append]
        have h4 : off + 32 + 32 * slotsSum ps = off + 32 * (1 + slotsSum ps) := by
          omega
        rw [h4]
      by_cases he : strEndsWith p.ptype "[]" = true
      · exfalso
        unfold paramKind at hp
        rw [if_neg ht, if_neg hb, if_pos he] at hp
        simp at hp
      cases htm : typeMatch p.ptype with
      | none =>
          exfalso
          unfold paramKind at hp
          rw [if_neg ht, if_neg hb, if_neg he, htm] at hp
          simp at hp
      | some pr =>
          obtain ⟨typ, dim?⟩ := pr
          cases dim? with
          | none =>
              have hpk : paramKind p = some (.prim typ) := by
                unfold paramKind
                rw [if_neg ht, if_neg hb, if_neg he, htm]
              have h1 : p1writes off (p :: ps) =
                  (4 + off, 32,
                    CDVal.symV ("p_" ++ p.pname ++ "_" ++ typ)) ::
                    p1writes (off + 32) ps := by
                simp only [p1writes, hpk]
              have h2 : p1tba off (p :: ps) = p1tba (off + 32) ps := by
                simp only [p1tba, hpk]
              have h3 : slotsSum (p :: ps) = 1 + slotsSum ps := by
                simp only [slotsSum, slotCount, hpk, List.map_cons,
                  List.sum_cons]
              simp only [pass1, if_neg ht, if_neg hb, if_neg he, htm]
              rw [ih _ _ _ hrest, h1, h2, h3]
              have h4 : off + 32 + 32 * slotsSum ps =
                  off + 32 * (1 + slotsSum ps) := by omega
              rw [h4]
              rfl
          | some dim =>
              have hpk : paramKind p = some (.arr typ dim) := by
                unfold paramKind
                rw [if_neg ht, if_neg hb, if_neg he, htm]
              have h1 : p1writes off (p :: ps) =
                  arrWrites p.pname typ (List.range dim) off ++
                    p1writes (off + 32 * dim) ps := by
                simp only [p1writes, hpk]
              have h2 : p1tba off (p :: ps) = p1tba (off + 32 * dim) ps := by
                simp only [p1tba, hpk]
              have h3 : slotsSum (p :: ps) = dim + slotsSum ps := by
                simp only [slotsSum, slotCount, hpk, List.map_cons,
                  List.sum_cons]
              simp only [pass1, if_neg ht, if_neg hb, if_neg he, htm]
              rw [arrLoop_spec, List.length_range]
              rw [ih _ _ _ hrest, h1, h2, h3]
              have h4 : off + 32 * dim + 32 * slotsSum ps =
                  off + 32 * (dim + slotsSum ps) := by omega
              rw [h4]
              have h5 : ∀ (aw pw : List CDWrite) (cd0 : List CDByte),
                  applyWrites (applyWrites cd0 aw) pw =
                    applyWrites cd0 (aw ++ pw) := by
                intro aw
                induction aw with
                | nil => intro pw cd0; rfl
                | cons a as iha =>
                    intro pw cd0
                    rw [List.cons_append, applyWrites, applyWrites]
                    exact iha pw _
              rw [h5]

lemma pass2_spec (args : Args) (arrlen : List (String × Nat))
    (tba : List (Nat × AbiParam)) :
    ∀ (cd : List CDByte) (off : Nat) (dyn : List String),
      (∀ q ∈ tba, q.2.ptype = "bytes" ∨ q.2.ptype = "string") →
      pass2 args arrlen cd off dyn tba =
        .ok (applyWrites cd (p2writes args arrlen off tba),
          off + tailSizeT args arrlen tba,
          dyn ++ dynStrs args arrlen tba) := by
  induction tba with
  | nil =>
      intro cd off dyn _
      simp [pass2, p2writes, tailSizeT, dynStrs, applyWrites]
  | cons q rest ih =>
      obtain ⟨loc, p⟩ := q
      intro cd off dyn hdyn
      have hp : p.ptype = "bytes" ∨ p.ptype = "string" :=
        hdyn (loc, p) (List.mem_cons_self _ _)
      have hrest := fun r hr => hdyn r (List.mem_cons_of_mem _ hr)
      simp only [pass2, if_pos hp]
      by_cases hpad : dynPad args arrlen p > 0
      · have hpad2 : (dynSize args arrlen p + 31) / 32 * 32 > 0 := hpad
        rw [if_pos hpad2]
        rw [ih _ _ _ hrest]
        rw [show (dynSize args arrlen p + 31) / 32 * 32 =
          dynPad args arrlen p from rfl]
        rw [show 4 + (off + 32) = 4 + off + 32 from by omega]
        have h1 : p2writes args arrlen off ((loc, p) :: rest) =
            (loc, 32, CDVal.conV off) ::
              (4 + off, 32, CDVal.conV (dynSize args arrlen p)) ::
              ((4 + off + 32, dynPad args arrlen p,
                CDVal.symV ("p_" ++ p.pname ++ "_" ++ p.ptype)) ::
                p2writes args arrlen (off + 32 + dynPad args arrlen p) rest) := by
          simp only [p2writes, if_pos hpad, List.singleton_append]
        have h2 : tailSizeT args arrlen ((loc, p) :: rest) =
            32 + dynPad args arrlen p + tailSizeT args arrlen rest := rfl
        have h3 : dynStrs args arrlen ((loc, p) :: rest) =
            ("|" ++ p.pname ++ "|=" ++ toString (dynSize args arrlen p)) ::
              dynStrs args arrlen rest := rfl
        rw [h1, h2, h3]
        rw [List.append_assoc, List.singleton_append]
        have h4 : off + 32 + dynPad args arrlen p +
            tailSizeT args arrlen rest =
            off + (32 + dynPad args arrlen p + tailSizeT args arrlen rest) := by
          omega
        rw [h4]
        rfl
      · have hpad2 : ¬((dynSize args arrlen p + 31) / 32 * 32 > 0) := hpad
        rw [if_neg hpad2]
        rw [ih _ _ _ hrest]
        have hz : dynPad args arrlen p = 0 := by omega
        have h1 : p2writes args arrlen off ((loc, p) :: rest) =
            (loc, 32, CDVal.conV off) ::
              (4 + off, 32, CDVal.conV (dynSize args arrlen p)) ::
              p2writes args arrlen (off + 32) rest := by
          simp [p2writes, hz]
        have h2 : tailSizeT args arrlen ((loc, p) :: rest) =
            32 + dynPad args arrlen p + tailSizeT args arrlen rest := rfl
        have h3 : dynStrs args arrlen ((loc, p) :: rest) =
            ("|" ++ p.pname ++ "|=" ++ toString (dynSize args arrlen p)) ::
              dynStrs args arrlen rest := rfl
        rw [h1, h2, h3]
        rw [List.append_assoc, List.singleton_append]
        have h4 : off + 32 + tailSizeT args arrlen rest =
            off + (32 + dynPad args arrlen p + tailSizeT args arrlen rest) := by
          omega
        rw [h4]
        rfl

lemma applyWrites_append (aw pw : List CDWrite) (cd : List CDByte) :
    applyWrites cd (aw ++ pw) = applyWrites (applyWrites cd aw) pw := by
  induction aw generalizing cd with
  | nil => rfl
  | cons a as iha =>
      rw [List.cons_append, applyWrites, applyWrites]
      exact iha _

lemma perm_shuffle {α : Type} (hw lw : α) (D A B Aa Bb : List α)
    (h : (A ++ B).Perm (Aa ++ Bb)) :
    (A ++ (hw :: lw :: (D ++ B))).Perm
      ((hw :: Aa) ++ (lw :: (D ++ Bb))) := by
  have inner1 : (A ++ (lw :: (D ++ B))).Perm (lw :: (D ++ (A ++ B))) :=
    List.perm_middle.trans ((List.perm_append_comm_assoc A D B).cons lw)
  have s1 : (A ++ (hw :: lw :: (D ++ B))).Perm
      (hw :: lw :: (D ++ (A ++ B))) :=
    List.perm_middle.trans (inner1.cons hw)
  have inner2 : (Aa ++ (lw :: (D ++ Bb))).Perm (lw :: (D ++ (Aa ++ Bb))) :=
    List.perm_middle.trans ((List.perm_append_comm_assoc Aa D Bb).cons lw)
  have s2 : ((hw :: Aa) ++ (lw :: (D ++ Bb))).Perm
      (hw :: lw :: (D ++ (Aa ++ Bb))) :=
    inner2.cons hw
  have mid : (hw :: lw :: (D ++ (A ++ B))).Perm
      (hw :: lw :: (D ++ (Aa ++ Bb))) :=
    ((h.append_left D).cons lw).cons hw
  exact s1.trans (mid.trans s2.symm)

lemma writes_perm (args : Args) (arrlen : List (String × Nat))
    (ps : List AbiParam) :
    ∀ (off tailOff : Nat), (∀ p ∈ ps, (paramKind p).isSome) →
      (p1writes off ps ++
        p2writes args arrlen tailOff (p1tba off ps)).Perm
      (specHeadWrites args arrlen off tailOff ps ++
        specTailWrites args arrlen tailOff ps) := by
  induction ps with
  | nil =>
      intro off tailOff _
      simp [p1writes, p1tba, p2writes, specHeadWrites, specTailWrites]
  | cons p ps ih =>
      intro off tailOff hsup
      have hrest := fun q hq => hsup q (List.mem_cons_of_mem _ hq)
      have hp := hsup p (List.mem_cons_self _ _)
      cases hpk : paramKind p with
      | none => rw [hpk] at hp; simp at hp
      | some k =>
          cases k with
          | dynB =>
              simp only [p1writes, p1tba, p2writes, specHeadWrites,
                specTailWrites, hpk]
              exact perm_shuffle _ _ _ _ _ _ _
                (ih (off + 32) (tailOff + 32 + dynPad args arrlen p) hrest)
          | prim typ =>
              simp only [p1writes, p1tba, specHeadWrites, specTailWrites,
                hpk, List.cons_append]
              exact (ih (off + 32) tailOff hrest).cons _
          | arr typ dim =>
              simp only [p1writes, p1tba, specHeadWrites, specTailWrites,
                hpk, List.append_assoc]
              exact (ih (off + 32 * dim) tailOff hrest).append_left _

lemma arrWrites_bounds (pname typ : String) (idxs : List Nat) :
    ∀ (off : Nat), ∀ w ∈ arrWrites pname typ idxs off,
      4 + off ≤ w.1 ∧ w.1 + w.2.1 ≤ 4 + off + 32 * idxs.length := by
  induction idxs with
  | nil => intro off w hw; cases hw
  | cons i is ih =>
      intro off w hw
      rcases List.mem_cons.mp hw with rfl | hmem
      · refine ⟨Nat.le_refl _, ?_⟩
        show 4 + off + 32 ≤ 4 + off + 32 * (i :: is).length
        rw [List.length_cons]
        omega
      · have h := ih (off + 32) w hmem
        rw [List.length_cons]
        omega

lemma arrWrites_pairwise (pname typ : String) (idxs : List Nat) :
    ∀ (off : Nat), (arrWrites pname typ idxs off).Pairwise wdisj := by
  induction idxs with
  | nil => intro off; exact List.Pairwise.nil
  | cons i is ih =>
      intro off
      rw [arrWrites, List.pairwise_cons]
      refine ⟨?_, ih (off + 32)⟩
      intro w hw
      have h := (arrWrites_bounds pname typ is (off + 32) w hw).1
      left
      show 4 + off + 32 ≤ w.1
      omega

lemma specHW_bounds (args : Args) (arrlen : List (String × Nat))
    (ps : List AbiParam) :
    ∀ (off tailOff : Nat),
      ∀ w ∈ specHeadWrites args arrlen off tailOff ps,
      4 + off ≤ w.1 ∧ w.1 + w.2.1 ≤ 4 + off + 32 * slotsSum ps := by
  induction ps with
  | nil => intro off tailOff w hw; cases hw
  | cons p ps ih =>
      intro off tailOff w hw
      have hs : slotsSum (p :: ps) = slotCount p + slotsSum ps := by
        simp [slotsSum]
      cases hpk : paramKind p with
      | none =>
          rw [specHeadWrites, hpk] at hw
          cases hw
      | some k =>
          cases k with
          | dynB =>
              rw [specHeadWrites, hpk] at hw
              have hc : slotCount p = 1 := by simp [slotCount, hpk]
              rcases List.mem_cons.mp hw with rfl | hmem
              · rw [hs, hc]
                refine ⟨Nat.le_refl _, ?_⟩
                show 4 + off + 32 ≤ 4 + off + 32 * (1 + slotsSum ps)
                omega
              · have h := ih (off + 32) _ w hmem
                rw [hs, hc]
                omega
          | prim typ =>
              rw [specHeadWrites, hpk] at hw
              have hc : slotCount p = 1 := by simp [slotCount, hpk]
              rcases List.mem_cons.mp hw with rfl | hmem
              · rw [hs, hc]
                refine ⟨Nat.le_refl _, ?_⟩
                show 4 + off + 32 ≤ 4 + off + 32 * (1 + slotsSum ps)
                omega
              · have h := ih (off + 32) _ w hmem
                rw [hs, hc]
                omega
          | arr typ dim =>
              rw [specHeadWrites, hpk] at hw
              have hc : slotCount p = dim := by simp [slotCount, hpk]
              rcases List.mem_append.mp hw with hmem | hmem
              · have h := arrWrites_bounds p.pname typ (List.range dim) off
                  w hmem
                rw [List.length_range] at h
                rw [hs, hc]
                omega
              · have h := ih (off + 32 * dim) _ w hmem
                rw [hs, hc]
                omega

lemma specHW_pairwise (args : Args) (arrlen : List (String × Nat))
    (ps : List AbiParam) :
    ∀ (off tailOff : Nat),
      (specHeadWrites args arrlen off tailOff ps).Pairwise wdisj := by
  induction ps with
  | nil => intro off tailOff; exact List.Pairwise.nil
  | cons p ps ih =>
      intro off tailOff
      cases hpk : paramKind p with
      | none => rw [specHeadWrites, hpk]; exact List.Pairwise.nil
      | some k =>
          cases k with
          | dynB =>
              rw [specHeadWrites, hpk, List.pairwise_cons]
              refine ⟨?_, ih _ _⟩
              intro w hw
              have h := (specHW_bounds args arrlen ps (off + 32) _ w hw).1
              left
              show 4 + off + 32 ≤ w.1
              omega
          | prim typ =>
              rw [specHeadWrites, hpk, List.pairwise_cons]
              refine ⟨?_, ih _ _⟩
              intro w hw
              have h := (specHW_bounds args arrlen ps (off + 32) _ w hw).1
              left
              show 4 + off + 32 ≤ w.1
              omega
          | arr typ dim =>
              rw [specHeadWrites, hpk, List.pairwise_append]
              refine ⟨arrWrites_pairwise _ _ _ _, ih _ _, ?_⟩
              intro a ha b hb
              have h1 := arrWrites_bounds p.pname typ (List.range dim) off a ha
              rw [List.length_range] at h1
              have h2 := (specHW_bounds args arrlen ps (off + 32 * dim) _ b hb).1
              left
              omega

lemma specTW_bounds (args : Args) (arrlen : List (String × Nat))
    (ps : List AbiParam) :
    ∀ (tailOff : Nat), ∀ w ∈ specTailWrites args arrlen tailOff ps,
      4 + tailOff ≤ w.1 ∧
        w.1 + w.2.1 ≤ 4 + tailOff + tailSizeP args arrlen ps := by
  induction ps with
  | nil => intro tailOff w hw; cases hw
  | cons p ps ih =>
      intro tailOff w hw
      cases hpk : paramKind p with
      | none =>
          rw [specTailWrites, hpk] at hw
          have h := ih tailOff w hw
          have ht : tailSizeP args arrlen (p :: ps) =
              0 + tailSizeP args arrlen ps := by
            simp [tailSizeP, hpk]
          omega
      | some k =>
          cases k with
          | dynB =>
              rw [specTailWrites, hpk] at hw
              have ht : tailSizeP args arrlen (p :: ps) =
                  32 + dynPad args arrlen p + tailSizeP args arrlen ps := by
                simp [tailSizeP, hpk]
              rcases List.mem_cons.mp hw with rfl | hmem
              · refine ⟨Nat.le_refl _, ?_⟩
                show 4 + tailOff + 32 ≤
                  4 + tailOff + tailSizeP args arrlen (p :: ps)
                omega
              · rcases List.mem_append.mp hmem with hd | hrest
                · by_cases hpad : dynPad args arrlen p > 0
                  · rw [if_pos hpad] at hd
                    rcases List.mem_cons.mp hd with rfl | habs
                    · refine ⟨by omega, ?_⟩
                      show 4 + tailOff + 32 + dynPad args arrlen p ≤
                        4 + tailOff + tailSizeP args arrlen (p :: ps)
                      omega
                    · cases habs
                  · rw [if_neg hpad] at hd
                    cases hd
                · have h := ih _ w hrest
                  omega
          | prim typ =>
              rw [specTailWrites, hpk] at hw
              have h := ih tailOff w hw
              have ht : tailSizeP args arrlen (p :: ps) =
                  0 + tailSizeP args arrlen ps := by
                simp [tailSizeP, hpk]
              omega
          | arr typ dim =>
              rw [specTailWrites, hpk] at hw
              have h := ih tailOff w hw
              have ht : tailSizeP args arrlen (p :: ps) =
                  0 + tailSizeP args arrlen ps := by
                simp [tailSizeP, hpk]
              omega

lemma specTW_pairwise (args : Args) (arrlen : List (String × Nat))
    (ps : List AbiParam) :
    ∀ (tailOff : Nat),
      (specTailWrites args arrlen tailOff ps).Pairwise wdisj := by
  induction ps with
  | nil => intro tailOff; exact List.Pairwise.nil
  | cons p ps ih =>
      intro tailOff
      cases hpk : paramKind p with
      | none => rw [specTailWrites, hpk]; exact ih tailOff
      | some k =>
          cases k with
          | dynB =>
              rw [specTailWrites, hpk, List.pairwise_cons]
              constructor
              · intro w hw
                rcases List.mem_append.mp hw with hd | hrest
                · by_cases hpad : dynPad args arrlen p > 0
                  · rw [if_pos hpad] at hd
                    rcases List.mem_cons.mp hd with rfl | habs
                    · left
                      show 4 + tailOff + 32 ≤ 4 + tailOff + 32
                      omega
                    · cases habs
                  · rw [if_neg hpad] at hd
                    cases hd
                · have h := (specTW_bounds args arrlen ps _ w hrest).1
                  left
                  show 4 + tailOff + 32 ≤ w.1
                  omega
              · rw [List.pairwise_append]
                refine ⟨?_, ih _, ?_⟩
                · by_cases hpad : dynPad args arrlen p > 0
                  · rw [if_pos hpad]
                    exact List.pairwise_singleton _ _
                  · rw [if_neg hpad]
                    exact List.Pairwise.nil
                · intro a ha b hb
                  by_cases hpad : dynPad args arrlen p > 0
                  · rw [if_pos hpad] at ha
                    rcases List.mem_cons.mp ha with rfl | habs
                    · have h := (specTW_bounds args arrlen ps _ b hb).1
                      left
                      show 4 + tailOff + 32 + dynPad args arrlen p ≤ b.1
                      omega
                    · cases habs
                  · rw [if_neg hpad] at ha
                    cases ha
          | prim typ =>
              rw [specTailWrites, hpk]
              exact ih tailOff
          | arr typ dim =>
              rw [specTailWrites, hpk]
              exact ih tailOff

lemma specWrites_pairwise (args : Args) (arrlen : List (String × Nat))
    (ps : List AbiParam) (selector : Nat) :
    (specWrites args arrlen ps selector).Pairwise wdisj := by
  rw [specWrites, List.pairwise_cons]
  constructor
  · intro w hw
    rcases List.mem_append.mp hw with hh | ht
    · have h := (specHW_bounds args arrlen ps 0 _ w hh).1
      left
      show 0 + 4 ≤ w.1
      omega
    · have h := (specTW_bounds args arrlen ps _ w ht).1
      left
      show 0 + 4 ≤ w.1
      omega
  · rw [List.pairwise_append]
    refine ⟨specHW_pairwise _ _ _ _ _, specTW_pairwise _ _ _ _, ?_⟩
    intro a ha b hb
    have h1 := (specHW_bounds args arrlen ps 0 _ a ha).2
    have h2 := (specTW_bounds args arrlen ps _ b hb).1
    left
    omega

lemma specWrites_bounds (args : Args) (arrlen : List (String × Nat))
    (ps : List AbiParam) (selector : Nat)
    (hfit : 4 + 32 * slotsSum ps + tailSizeP args arrlen ps ≤ 10000) :
    ∀ w ∈ specWrites args arrlen ps selector, w.1 + w.2.1 ≤ 10000 := by
  intro w hw
  rw [specWrites] at hw
  rcases List.mem_cons.mp hw with rfl | hmem
  · show 0 + 4 ≤ 10000
    omega
  rcases List.mem_append.mp hmem with hh | ht
  · have h := (specHW_bounds args arrlen ps 0 _ w hh).2
    omega
  · have h := (specTW_bounds args arrlen ps _ w ht).2
    omega

lemma paramKind_dynB_inv (p : AbiParam) (h : paramKind p = some .dynB) :
    p.ptype = "bytes" ∨ p.ptype = "string" := by
  unfold paramKind at h
  by_cases ht : p.ptype = "tuple"
  · rw [if_pos ht] at h; cases h
  · rw [if_neg ht] at h
    by_cases hb : p.ptype = "bytes" ∨ p.ptype = "string"
    · exact hb
    · rw [if_neg hb] at h
      by_cases he : strEndsWith p.ptype "[]" = true
      · rw [if_pos he] at h; cases h
      · rw [if_neg he] at h
        cases htm : typeMatch p.ptype with
        | none => rw [htm] at h; cases h
        | some pr =>
            rw [htm] at h
            obtain ⟨typ, dim?⟩ := pr
            cases dim? <;> simp at h

lemma p1tba_dyn (ps : List AbiParam) :
    ∀ (off : Nat), ∀ q ∈ p1tba off ps,
      q.2.ptype = "bytes" ∨ q.2.ptype = "string" := by
  induction ps with
  | nil => intro off q hq; cases hq
  | cons p ps ih =>
      intro off q hq
      cases hpk : paramKind p with
      | none => rw [p1tba, hpk] at hq; cases hq
      | some k =>
          cases k with
          | dynB =>
              rw [p1tba, hpk] at hq
              rcases List.mem_cons.mp hq with rfl | hmem
              · exact paramKind_dynB_inv p hpk
              · exact ih _ q hmem
          | prim typ =>
              rw [p1tba, hpk] at hq
              exact ih _ q hq
          | arr typ dim =>
              rw [p1tba, hpk] at hq
              exact ih _ q hq

lemma tailSizeT_p1tba (args : Args) (arrlen : List (String × Nat))
    (ps : List AbiParam) :
    ∀ (off : Nat), (∀ p ∈ ps, (paramKind p).isSome) →
      tailSizeT args arrlen (p1tba off ps) = tailSizeP args arrlen ps := by
  induction ps with
  | nil => intro off _; rfl
  | cons p ps ih =>
      intro off hsup
      have hrest := fun q hq => hsup q (List.mem_cons_of_mem _ hq)
      have hp := hsup p (List.mem_cons_self _ _)
      cases hpk : paramKind p with
      | none => rw [hpk] at hp; simp at hp
      | some k =>
          cases k with
          | dynB =>
              rw [p1tba, hpk, tailSizeT, ih _ hrest]
              simp [tailSizeP, hpk]
          | prim typ =>
              rw [p1tba, hpk, ih _ hrest]
              simp [tailSizeP, hpk]
          | arr typ dim =>
              rw [p1tba, hpk, ih _ hrest]
              simp [tailSizeP, hpk]

lemma filter_nil_processAbi (args : Args) (arrlen : List (String × Nat))
    (funname : String) (abi : List AbiItem) :
    ∀ (state : List CDByte × List String),
      abi.filter
        (fun it => it.itype == "function" && it.iname == funname) = [] →
      processAbi args arrlen funname state abi = .ok state := by
  induction abi with
  | nil => intro state _; rfl
  | cons a rest ih =>
      intro state hf
      rw [List.filter_cons] at hf
      by_cases hm : (a.itype == "function" && a.iname == funname) = true
      · rw [if_pos hm] at hf; simp at hf
      · rw [if_neg hm] at hf
        have hskip : processItem args arrlen funname state a = .ok state := by
          unfold processItem
          rw [if_neg hm]
        simp only [processAbi, hskip]
        exact ih state hf

lemma processAbi_of_filter_single (args : Args)
    (arrlen : List (String × Nat)) (funname : String) (abi : List AbiItem)
    (item : AbiItem) :
    ∀ (state st2 : List CDByte × List String),
      abi.filter
        (fun it => it.itype == "function" && it.iname == funname) =
        [item] →
      processItem args arrlen funname state item = .ok st2 →
      processAbi args arrlen funname state abi = .ok st2 := by
  induction abi with
  | nil => intro state st2 hf; simp at hf
  | cons a rest ih =>
      intro state st2 hf hpi
      rw [List.filter_cons] at hf
      by_cases hm : (a.itype == "function" && a.iname == funname) = true
      · rw [if_pos hm] at hf
        injection hf with h1 h2
        subst h1
        simp only [processAbi, hpi]
        exact filter_nil_processAbi args arrlen funname rest st2 h2
      · rw [if_neg hm] at hf
        have hskip : processItem args arrlen funname state a = .ok state := by
          unfold processItem
          rw [if_neg hm]
        simp only [processAbi, hskip]
        exact ih state st2 hf hpi

lemma initCalldata_length : initCalldata.length = 10000 := by
  simp [initCalldata]

lemma initCalldata_get (i : Nat) (hi : i < 10000) :
    initCalldata.get? i = some (CDByte.cdInit i) := by
  rw [initCalldata, List.get?_map, List.get?_range hi]
  rfl

lemma sourceWrites_eq_spec (args : Args) (arrlen : List (String × Nat))
    (ps : List AbiParam) (selector : Nat)
    (hsup : ∀ p ∈ ps, (paramKind p).isSome)
    (hfit : 4 + 32 * slotsSum ps + tailSizeP args arrlen ps ≤ 10000) :
    applyWrites (applyWrites (wstore initCalldata 0 4 (.conV selector))
        (p1writes 0 ps))
      (p2writes args arrlen (32 * slotsSum ps) (p1tba 0 ps)) =
      specCalldata args arrlen ps selector := by
  rw [← applyWrites_append]
  have hw0 : wstore initCalldata 0 4 (.conV selector) =
      applyWrites initCalldata [(0, 4, CDVal.conV selector)] := rfl
  rw [hw0, ← applyWrites_append, List.singleton_append]
  have hperm : ((0, 4, CDVal.conV selector) ::
      (p1writes 0 ps ++
        p2writes args arrlen (32 * slotsSum ps) (p1tba 0 ps))).Perm
      (specWrites args arrlen ps selector) := by
    rw [specWrites]
    exact (writes_perm args arrlen ps 0 (32 * slotsSum ps) hsup).cons _
  have hdisjS := specWrites_pairwise args arrlen ps selector
  have hdisj := (hperm.pairwise_iff (fun hab => Or.symm hab)).mpr hdisjS
  have hboundsS := specWrites_bounds args arrlen ps selector hfit
  have hbounds : ∀ w ∈ (0, 4, CDVal.conV selector) ::
      (p1writes 0 ps ++
        p2writes args arrlen (32 * slotsSum ps) (p1tba 0 ps)),
      w.1 + w.2.1 ≤ initCalldata.length := by
    intro w hw
    rw [initCalldata_length]
    exact hboundsS w (hperm.mem_iff.mp hw)
  apply List.ext_get?
  intro i
  rw [applyWrites_get _ initCalldata hbounds hdisj i]
  rw [findW_perm _ _ hperm hdisj i]
  by_cases hi : i < 10000
  · have hspec : (specCalldata args arrlen ps selector).get? i =
        some (specCalldataByte args arrlen ps selector i) := by
      rw [specCalldata, List.get?_map, List.get?_range hi]
      rfl
    rw [hspec]
    unfold specCalldataByte
    cases hf : findW (specWrites args arrlen ps selector) i with
    | some w =>
        obtain ⟨hmem, hcov⟩ := findW_some _ _ _ hf
        have hlt : i - w.1 < (valBytes w.2.1 w.2.2).length := by
          rw [valBytes_length]
          unfold covers at hcov
          omega
        simp only [hf]
        rw [List.getD_eq_get?]
        cases hg : (valBytes w.2.1 w.2.2).get? (i - w.1) with
        | none =>
            rw [List.get?_eq_none] at hg
            omega
        | some b => rfl
    | none =>
        simp only [hf]
        rw [initCalldata_get i hi]
  · have h2 : (specCalldata args arrlen ps selector).get? i = none := by
      rw [List.get?_eq_none]
      simp [specCalldata]
      omega
    cases hf : findW (specWrites args arrlen ps selector) i with
    | some w =>
        exfalso
        obtain ⟨hmem, hcov⟩ := findW_some _ _ _ hf
        have hb := hboundsS w hmem
        unfold covers at hcov
        omega
    | none =>
        simp only [hf]
        rw [h2, List.get?_eq_none, initCalldata_length]
        omega

/-- C8: the calldata `run` builds for a test function is the fixed
10,000-byte vector whose bytes are given by the spec's ABI layout: the
concrete 4-byte selector at bytes 0..3; one 32-byte head slot per
parameter in declaration order, a fresh symbolic 256-bit word named
`p_<name>_<type>` for each primitive parameter and
`p_<name>[<idx>]_<type>` for each element of a fixed-size array; for
`bytes`/`string` parameters a head slot holding the concrete offset of the
tail, whose 32-byte concrete length equals the `arrlen` entry (defaulting
to the loop bound) and is followed by a single fresh symbolic byte string
padded up to a multiple of 32 bytes; all untouched bytes keep their
initial uninterpreted value. -/
theorem calldata_layout (args : Args) (arrlen : List (String × Nat))
    (abi : List AbiItem) (funname : String) (selector : Nat)
    (item : AbiItem)
    (habi : abi.filter
      (fun it => it.itype == "function" && it.iname == funname) = [item])
    (hsup : ∀ p ∈ item.inputs, (paramKind p).isSome)
    (hfit : 4 + 32 * slotsSum item.inputs +
      tailSizeP args arrlen item.inputs ≤ 10000) :
    buildCalldata args arrlen abi funname selector =
      .ok (specCalldata args arrlen item.inputs selector,
        dynStrs args arrlen (p1tba 0 item.inputs)) ∧
    (specCalldata args arrlen item.inputs selector).length = 10000 := by
  have hlen2 : (specCalldata args arrlen item.inputs selector).length =
      10000 := by
    simp [specCalldata]
  refine ⟨?_, hlen2⟩
  have hmatch : (item.itype == "function" && item.iname == funname) = true := by
    have hmem : item ∈ abi.filter
        (fun it => it.itype == "function" && it.iname == funname) := by
      rw [habi]
      exact List.mem_singleton_self _
    exact (List.mem_filter.mp hmem).2
  have hstep1 := pass1_spec item.inputs
    (wstore initCalldata 0 4 (.conV selector)) [] 0 hsup
  have hstep2 := pass2_spec args arrlen (p1tba 0 item.inputs)
    (applyWrites (wstore initCalldata 0 4 (.conV selector))
      (p1writes 0 item.inputs))
    (32 * slotsSum item.inputs) []
    (fun q hq => p1tba_dyn item.inputs 0 q hq)
  have hpi : processItem args arrlen funname
      (wstore initCalldata 0 4 (.conV selector), []) item =
      .ok (applyWrites
            (applyWrites (wstore initCalldata 0 4 (.conV selector))
              (p1writes 0 item.inputs))
            (p2writes args arrlen (32 * slotsSum item.inputs)
              (p1tba 0 item.inputs)),
        dynStrs args arrlen (p1tba 0 item.inputs)) := by
    simp only [processItem, hmatch, if_true, List.nil_append, Nat.zero_add,
      hstep1, hstep2]
  unfold buildCalldata
  rw [processAbi_of_filter_single args arrlen funname abi item _ _ habi hpi]
  rw [sourceWrites_eq_spec args arrlen item.inputs selector hsup hfit]

/-- Witness for C8 at a concrete input: the ABI of
`test_bytes(uint256 x, uint8[2] a, bytes b)` with `arrlen = {b: 64}` and
loop bound 2 satisfies the hypotheses, so the constructed calldata is the
spec layout. -/
theorem calldata_layout_witness :
    buildCalldata ⟨2, 1000, 60000, false⟩ [("b", 64)]
        [⟨"function", "test_bytes",
          [⟨"x", "uint256"⟩, ⟨"a", "uint8[2]"⟩, ⟨"b", "bytes"⟩]⟩]
        "test_bytes" 0xabcdef12 =
      .ok (specCalldata ⟨2, 1000, 60000, false⟩ [("b", 64)]
          [⟨"x", "uint256"⟩, ⟨"a", "uint8[2]"⟩, ⟨"b", "bytes"⟩] 0xabcdef12,
        dynStrs ⟨2, 1000, 60000, false⟩ [("b", 64)]
          (p1tba 0 [⟨"x", "uint256"⟩, ⟨"a", "uint8[2]"⟩, ⟨"b", "bytes"⟩])) :=
  (calldata_layout ⟨2, 1000, 60000, false⟩ [("b", 64)]
    [⟨"function", "test_bytes",
      [⟨"x", "uint256"⟩, ⟨"a", "uint8[2]"⟩, ⟨"b", "bytes"⟩]⟩]
    "test_bytes" 0xabcdef12
    ⟨"function", "test_bytes",
      [⟨"x", "uint256"⟩, ⟨"a", "uint8[2]"⟩, ⟨"b", "bytes"⟩]⟩
    (by decide) (by decide) (by decide)).1
